import Mathlib

/-!
Verification of the bestsource frame-accurate media source core.

Only the public headers (`audiosource.h`, `videosource.h`) are present in the
repository snapshot; every algorithm below is modelled from the design
specification (`spec.md`), which describes the behaviour of the declared
methods.  Decoded frame content is modelled as an opaque byte list; int64
quantities that never overflow in the algorithms are modelled as `Nat`/`Int`.
-/

namespace BestSource

/-- Decoded frame content: the raw decoded bytes of one frame. -/
abbrev Content : Type := List Nat

/-! ## Decoded-frame cache (C4 in the spec)

Modelled from the spec: §4.4 — a byte-bounded LRU mapping frame index to a
decoded frame.  The implementation of `Cache` (declared in `audiosource.h`
lines 123-143 / `videosource.h` lines 211-231) is not in the snapshot.
`data` keeps the most recently used block first. -/

structure CacheBlock where
  frameNumber : Nat
  frame : Content
  size : Nat
  deriving DecidableEq, Repr

/-- A block admitted for frame `n` with content `f`; its byte size is the
content length. -/
def mkCacheBlock (n : Nat) (f : Content) : CacheBlock :=
  ⟨n, f, f.length⟩

structure Cache where
  maxSize : Nat
  data : List CacheBlock
  deriving DecidableEq, Repr

/-- Default cache bound: 1 GiB (`MaxSize = 1024 * 1024 * 1024` in the headers). -/
def defaultMaxCacheSize : Nat := 1024 * 1024 * 1024

def Cache.init : Cache := ⟨defaultMaxCacheSize, []⟩

/-- Sum of the byte sizes of a list of cache blocks. -/
def totalSize (l : List CacheBlock) : Nat := (l.map CacheBlock.size).sum

def Cache.currentSize (c : Cache) : Nat := totalSize c.data

/-- Modelled from the spec: §4.4 eviction used by `SetMaxSize` — drop LRU
entries until the size bound holds.  Operates on the LRU-first (reversed)
block list. -/
def evictRevStrict (m : Nat) : List CacheBlock → List CacheBlock
  | [] => []
  | b :: rest =>
    if totalSize (b :: rest) ≤ m then b :: rest else evictRevStrict m rest

/-- Modelled from the spec: §4.4 eviction after admission — drop LRU entries
until the size bound holds, but the newly admitted (MRU, hence last in the
LRU-first list) block is retained even if it alone exceeds the bound.
Operates on the LRU-first (reversed) block list. -/
def evictRevAdmit (m : Nat) : List CacheBlock → List CacheBlock
  | [] => []
  | [b] => [b]
  | b :: b2 :: rest =>
    if totalSize (b :: b2 :: rest) ≤ m then b :: b2 :: rest
    else evictRevAdmit m (b2 :: rest)

/-- Modelled from the spec: §4.4 `clear`. -/
def Cache.clear (c : Cache) : Cache := ⟨c.maxSize, []⟩

/-- Modelled from the spec: §4.4 `set_max_size(bytes)`; `max_size = 0`
disables caching, and after shrinking the bound LRU entries are dropped
until the size bound holds again (§8, property 7). -/
def Cache.setMaxSize (c : Cache) (bytes : Nat) : Cache :=
  if bytes = 0 then ⟨0, []⟩
  else ⟨bytes, (evictRevStrict bytes c.data.reverse).reverse⟩

/-- Modelled from the spec: §4.4 `cache_frame(N, frame)` — takes ownership,
inserts at the MRU end, then evicts LRU entries; inserts are no-ops when
`max_size = 0`. -/
def Cache.cacheFrame (c : Cache) (n : Nat) (f : Content) : Cache :=
  if c.maxSize = 0 then c
  else ⟨c.maxSize, (evictRevAdmit c.maxSize ((mkCacheBlock n f :: c.data).reverse)).reverse⟩

/-- Modelled from the spec: §4.4 `get(N)` — returns the cached frame and
promotes the entry to MRU. -/
def Cache.getFrame (c : Cache) (n : Nat) : Option Content × Cache :=
  match c.data.find? (fun b => b.frameNumber == n) with
  | some b => (some b.frame, ⟨c.maxSize, b :: c.data.erase b⟩)
  | none => (none, c)

/-- The public operations of the cache. -/
inductive CacheOp where
  | clear : CacheOp
  | setMaxSize (bytes : Nat) : CacheOp
  | cacheFrame (n : Nat) (f : Content) : CacheOp
  | getFrame (n : Nat) : CacheOp

def applyCacheOp (op : CacheOp) (c : Cache) : Cache :=
  match op with
  | .clear => c.clear
  | .setMaxSize b => c.setMaxSize b
  | .cacheFrame n f => c.cacheFrame n f
  | .getFrame n => (c.getFrame n).2

def runCacheOps (ops : List CacheOp) (c : Cache) : Cache :=
  ops.foldl (fun c op => applyCacheOp op c) c

/-- The cache bound invariant: the total size is within the bound, except
that a single retained block may alone exceed it. -/
def CacheBound (c : Cache) : Prop :=
  totalSize c.data ≤ c.maxSize ∨ ∃ b, c.data = [b]

/-! ### Cache lemmas -/

theorem totalSize_append (l1 l2 : List CacheBlock) :
    totalSize (l1 ++ l2) = totalSize l1 + totalSize l2 := by
  simp [totalSize]

theorem totalSize_cons (b : CacheBlock) (l : List CacheBlock) :
    totalSize (b :: l) = b.size + totalSize l := by
  simp [totalSize]

theorem totalSize_reverse (l : List CacheBlock) :
    totalSize l.reverse = totalSize l := by
  simp [totalSize, List.sum_reverse]

theorem totalSize_perm {l1 l2 : List CacheBlock} (h : l1.Perm l2) :
    totalSize l1 = totalSize l2 :=
  (h.map CacheBlock.size).sum_eq

theorem evictRevStrict_le (m : Nat) (l : List CacheBlock) :
    totalSize (evictRevStrict m l) ≤ m := by
  induction l with
  | nil => simp [evictRevStrict, totalSize]
  | cons b rest ih =>
    by_cases h : totalSize (b :: rest) ≤ m
    · simp [evictRevStrict, h]
    · simpa [evictRevStrict, h] using ih

theorem evictRevAdmit_bound (m : Nat) (l : List CacheBlock) :
    totalSize (evictRevAdmit m l) ≤ m ∨ ∃ b, evictRevAdmit m l = [b] := by
  induction l with
  | nil => left; simp [evictRevAdmit, totalSize]
  | cons b rest ih =>
    match rest, ih with
    | [], _ => right; exact ⟨b, rfl⟩
    | b2 :: rest', ih =>
      by_cases h : totalSize (b :: b2 :: rest') ≤ m
      · left; simp [evictRevAdmit, h]
      · simpa [evictRevAdmit, h] using ih

theorem evictRevStrict_sublist (m : Nat) (l : List CacheBlock) :
    (evictRevStrict m l).Sublist l := by
  induction l with
  | nil => simp [evictRevStrict]
  | cons b rest ih =>
    by_cases h : totalSize (b :: rest) ≤ m
    · simp [evictRevStrict, h]
    · simp only [evictRevStrict, h, if_false]
      exact ih.trans (List.sublist_cons_self b rest)

theorem evictRevAdmit_sublist (m : Nat) (l : List CacheBlock) :
    (evictRevAdmit m l).Sublist l := by
  induction l with
  | nil => simp [evictRevAdmit]
  | cons b rest ih =>
    match rest, ih with
    | [], _ => simp [evictRevAdmit]
    | b2 :: rest', ih =>
      by_cases h : totalSize (b :: b2 :: rest') ≤ m
      · simp [evictRevAdmit, h]
      · simp only [evictRevAdmit, h, if_false]
        exact ih.trans (List.sublist_cons_self b (b2 :: rest'))

/-- Inserting a block that alone exceeds the bound evicts everything else. -/
theorem evictRevAdmit_oversize (m : Nat) (b : CacheBlock) (hb : m < b.size) :
    ∀ l : List CacheBlock, evictRevAdmit m (l ++ [b]) = [b] := by
  intro l
  induction l with
  | nil => simp [evictRevAdmit]
  | cons a l' ih =>
    have hgt : ¬ totalSize (a :: (l' ++ [b])) ≤ m := by
      have h1 : totalSize (a :: (l' ++ [b])) =
          a.size + (totalSize l' + totalSize [b]) := by
        rw [totalSize_cons, totalSize_append]
      have h2 : totalSize [b] = b.size := by simp [totalSize]
      omega
    cases l' with
    | nil =>
      have hgt2 : ¬ totalSize (a :: b :: []) ≤ m := by
        simpa using hgt
      simp only [List.nil_append, List.cons_append] at *
      rw [evictRevAdmit, if_neg hgt2]
      rfl
    | cons a2 l'' =>
      have ih2 : evictRevAdmit m (a2 :: (l'' ++ [b])) = [b] := by
        simpa using ih
      have hgt2 : ¬ totalSize (a :: a2 :: (l'' ++ [b])) ≤ m := by
        simpa using hgt
      simp only [List.cons_append]
      rw [evictRevAdmit, if_neg hgt2]
      exact ih2

theorem cache_getFrame_perm (c : Cache) (n : Nat) :
    ((c.getFrame n).2).data.Perm c.data := by
  unfold Cache.getFrame
  cases h : c.data.find? (fun b => b.frameNumber == n) with
  | none => simp
  | some b =>
    have hmem : b ∈ c.data := List.mem_of_find?_eq_some h
    exact (List.perm_cons_erase hmem).symm

theorem cacheBound_apply (op : CacheOp) (c : Cache) (h : CacheBound c) :
    CacheBound (applyCacheOp op c) := by
  cases op with
  | clear => left; simp [applyCacheOp, Cache.clear, totalSize]
  | setMaxSize b =>
    by_cases hb : b = 0
    · left; simp [applyCacheOp, Cache.setMaxSize, hb, totalSize]
    · left
      simp only [applyCacheOp, Cache.setMaxSize, hb, if_false]
      simpa [totalSize_reverse] using evictRevStrict_le b c.data.reverse
  | cacheFrame n f =>
    by_cases hm : c.maxSize = 0
    · simpa [applyCacheOp, Cache.cacheFrame, hm] using h
    · show CacheBound ((c.cacheFrame n f))
      rcases evictRevAdmit_bound c.maxSize ((mkCacheBlock n f :: c.data).reverse) with hle | ⟨b, hb⟩
      · left
        have hdata : (c.cacheFrame n f).data =
            (evictRevAdmit c.maxSize ((mkCacheBlock n f :: c.data).reverse)).reverse := by
          rw [Cache.cacheFrame, if_neg hm]
        have hmax : (c.cacheFrame n f).maxSize = c.maxSize := by
          rw [Cache.cacheFrame, if_neg hm]
        rw [hdata, hmax, totalSize_reverse]
        exact hle
      · right
        refine ⟨b, ?_⟩
        have hdata : (c.cacheFrame n f).data =
            (evictRevAdmit c.maxSize ((mkCacheBlock n f :: c.data).reverse)).reverse := by
          rw [Cache.cacheFrame, if_neg hm]
        rw [hdata, hb]
        rfl
  | getFrame n =>
    show CacheBound ((c.getFrame n).2)
    have hperm := cache_getFrame_perm c n
    rcases h with hle | ⟨b, hb⟩
    · left
      have hmax : ((c.getFrame n).2).maxSize = c.maxSize := by
        unfold Cache.getFrame
        cases c.data.find? (fun b => b.frameNumber == n) <;> simp
      rw [totalSize_perm hperm, hmax]; exact hle
    · right
      refine ⟨b, ?_⟩
      have : ((c.getFrame n).2).data.Perm [b] := hb ▸ hperm
      exact List.perm_singleton.mp this

theorem cacheBound_run (ops : List CacheOp) (c : Cache) (h : CacheBound c) :
    CacheBound (runCacheOps ops c) := by
  induction ops generalizing c with
  | nil => exact h
  | cons op rest ih => exact ih _ (cacheBound_apply op c h)

/-- C3. The frame cache's total size (sum of the byte sizes of all cached
blocks) is at most `MaxSize` at every public-call boundary, for every
sequence of `CacheFrame`, `GetFrame`, `Clear` and `SetMaxSize` calls, with
the stated exception that a single retained block may alone exceed the
bound (all other entries having been evicted); and after any
`SetMaxCacheSize(B)` the total size is at most `B` before the call
returns. -/
theorem cache_size_bounded :
    (∀ ops : List CacheOp, CacheBound (runCacheOps ops Cache.init)) ∧
    (∀ (c : Cache) (B : Nat), (c.setMaxSize B).currentSize ≤ B) := by
  constructor
  · intro ops
    exact cacheBound_run ops Cache.init (Or.inl (by simp [Cache.init, totalSize]))
  · intro c B
    by_cases hb : B = 0
    · simp [Cache.setMaxSize, Cache.currentSize, hb, totalSize]
    · simp only [Cache.setMaxSize, Cache.currentSize, hb, if_false]
      simpa [totalSize_reverse] using evictRevStrict_le B c.data.reverse

/-- A cache whose bound is zero holds no blocks, for every reachable cache. -/
theorem cache_zero_empty (op : CacheOp) (c : Cache)
    (h : c.maxSize = 0 → c.data = []) :
    (applyCacheOp op c).maxSize = 0 → (applyCacheOp op c).data = [] := by
  cases op with
  | clear => intro _; rfl
  | setMaxSize b =>
    by_cases hb : b = 0
    · intro _; simp [applyCacheOp, Cache.setMaxSize, hb]
    · simp [applyCacheOp, Cache.setMaxSize, hb]
  | cacheFrame n f =>
    by_cases hm : c.maxSize = 0
    · simpa [applyCacheOp, Cache.cacheFrame, hm] using h
    · intro hzero
      exfalso
      apply hm
      have : (c.cacheFrame n f).maxSize = c.maxSize := by
        rw [Cache.cacheFrame, if_neg hm]
      simpa [applyCacheOp, this] using hzero
  | getFrame n =>
    intro hzero
    have hmax : ((c.getFrame n).2).maxSize = c.maxSize := by
      unfold Cache.getFrame
      cases c.data.find? (fun b => b.frameNumber == n) <;> simp
    have hz : c.maxSize = 0 := by
      simpa [applyCacheOp, hmax] using hzero
    have hnil : c.data = [] := h hz
    have hperm := cache_getFrame_perm c n
    rw [hnil] at hperm
    simpa [applyCacheOp] using hperm.eq_nil

theorem cache_zero_empty_run (ops : List CacheOp) (c : Cache)
    (h : c.maxSize = 0 → c.data = []) :
    (runCacheOps ops c).maxSize = 0 → (runCacheOps ops c).data = [] := by
  induction ops generalizing c with
  | nil => exact h
  | cons op rest ih => exact ih _ (cache_zero_empty op c h)

/-- C9. A zero cache bound disables caching: with `MaxSize = 0` every
`CacheFrame` insertion is a no-op and every reachable cache with a zero
bound holds no blocks; with a nonzero bound, a single frame larger than
`MaxSize` is retained alone after evicting all other entries. -/
theorem cache_zero_disables :
    (∀ (c : Cache) (n : Nat) (f : Content), c.maxSize = 0 → c.cacheFrame n f = c) ∧
    (∀ ops : List CacheOp, (runCacheOps ops Cache.init).maxSize = 0 →
      (runCacheOps ops Cache.init).data = []) ∧
    (∀ (c : Cache) (n : Nat) (f : Content), c.maxSize ≠ 0 → c.maxSize < f.length →
      (c.cacheFrame n f).data = [mkCacheBlock n f]) := by
  refine ⟨?_, ?_, ?_⟩
  · intro c n f h
    rw [Cache.cacheFrame, if_pos h]
  · intro ops
    exact cache_zero_empty_run ops Cache.init (by intro h; rfl)
  · intro c n f hm hsz
    have hdata : (c.cacheFrame n f).data =
        (evictRevAdmit c.maxSize ((mkCacheBlock n f :: c.data).reverse)).reverse := by
      rw [Cache.cacheFrame, if_neg hm]
    have hrev : (mkCacheBlock n f :: c.data).reverse =
        c.data.reverse ++ [mkCacheBlock n f] := by
      simp
    have hsz2 : c.maxSize < (mkCacheBlock n f).size := hsz
    rw [hdata, hrev, evictRevAdmit_oversize c.maxSize (mkCacheBlock n f) hsz2 c.data.reverse]
    rfl

/-- Witness for C9 at concrete inputs. -/
theorem cache_zero_disables_witness :
    ((Cache.mk 0 []).cacheFrame 1 [7] = Cache.mk 0 []) ∧
    ((runCacheOps [CacheOp.setMaxSize 0] Cache.init).data = []) ∧
    (((Cache.mk 2 []).cacheFrame 0 [1, 2, 3]).data = [mkCacheBlock 0 [1, 2, 3]]) :=
  ⟨cache_zero_disables.1 (Cache.mk 0 []) 1 [7] rfl,
   cache_zero_disables.2.1 [CacheOp.setMaxSize 0] rfl,
   cache_zero_disables.2.2 (Cache.mk 2 []) 0 [1, 2, 3] (by decide) (by decide)⟩

/-! ## Track indexing (C2 in the spec)

Modelled from the spec: §4.2 — `IndexTrack` (declared in `audiosource.h` line
169 / `videosource.h` line 265, implementation absent) drives a decoder
cursor from open to EOF, recording per-frame metadata and a 128-bit content
hash.  The ground-truth decoded frames of the track are a `List Content`. -/

/-- Modelled from the spec: §4.2/§9 — the 128-bit content hash over a
deterministic stable prefix of the decoded bytes.  The exact algorithm is
left open by the spec; modelled as the first 16 decoded bytes reduced mod
256 and zero-padded to 16 bytes. -/
def contentHash (c : Content) : List Nat :=
  ((c.take 16).map (fun b => b % 256)) ++ List.replicate (16 - (c.take 16).length) 0

theorem contentHash_length (c : Content) : (contentHash c).length = 16 := by
  simp only [contentHash, List.length_append, List.length_map, List.length_replicate]
  have : (c.take 16).length ≤ 16 := List.length_take_le 16 c
  omega

theorem contentHash_lt (c : Content) : ∀ b ∈ contentHash c, b < 256 := by
  intro b hb
  simp only [contentHash, List.mem_append, List.mem_map, List.mem_replicate] at hb
  rcases hb with ⟨a, _, rfl⟩ | ⟨_, rfl⟩
  · exact Nat.mod_lt _ (by omega)
  · omega

/-- One entry of the audio track index (`audiosource.h` lines 110-115). -/
structure AudioFrameInfo where
  PTS : Int
  Start : Int
  Length : Int
  Hash : List Nat
  deriving DecidableEq, Repr

/-- The audio track index (`audiosource.h` lines 109-118). -/
structure AudioTrackIndex where
  Frames : List AudioFrameInfo
  deriving DecidableEq, Repr

/-- Modelled from the spec: §4.2 — the audio indexer records, for each
decoded frame, its PTS, the running sample position (`Start`), the frame's
sample length and the content hash; the running position advances by the
frame's length (`current_sample += num_samples`, §4.1).  `B` is the number
of bytes a single (all-channel) sample occupies, so a frame of `k` bytes
holds `k / B` samples. -/
def indexAudioAux (B : Nat) (pts : Nat → Int) : Nat → Int → List Content → List AudioFrameInfo
  | _, _, [] => []
  | i, pos, ct :: rest =>
    ⟨pts i, pos, ((ct.length / B : Nat) : Int), contentHash ct⟩ ::
      indexAudioAux B pts (i + 1) (pos + ((ct.length / B : Nat) : Int)) rest

def mkAudioIndex (B : Nat) (pts : Nat → Int) (stream : List Content) : AudioTrackIndex :=
  ⟨indexAudioAux B pts 0 0 stream⟩

/-- Modelled from the spec: §4.2 — on completion the indexer populates
`num_samples` on the audio properties with the final running sample
position. -/
def audioTotalSamplesAux (B : Nat) : Int → List Content → Int
  | pos, [] => pos
  | pos, ct :: rest => audioTotalSamplesAux B (pos + ((ct.length / B : Nat) : Int)) rest

def audioNumSamples (B : Nat) (stream : List Content) : Int :=
  audioTotalSamplesAux B 0 stream

theorem indexAudioAux_length (B : Nat) (pts : Nat → Int) :
    ∀ (l : List Content) (i : Nat) (pos : Int),
      (indexAudioAux B pts i pos l).length = l.length := by
  intro l
  induction l with
  | nil => intro i pos; rfl
  | cons ct rest ih =>
    intro i pos
    simp [indexAudioAux, ih]

theorem indexAudioAux_head_start (B : Nat) (pts : Nat → Int) :
    ∀ (l : List Content) (i : Nat) (pos : Int) (h : 0 < (indexAudioAux B pts i pos l).length),
      ((indexAudioAux B pts i pos l).get ⟨0, h⟩).Start = pos := by
  intro l
  cases l with
  | nil => intro i pos h; simp [indexAudioAux] at h
  | cons ct rest => intro i pos h; rfl

theorem indexAudioAux_contiguous (B : Nat) (pts : Nat → Int) :
    ∀ (l : List Content) (i : Nat) (pos : Int) (j : Nat)
      (h : j + 1 < (indexAudioAux B pts i pos l).length),
      ((indexAudioAux B pts i pos l).get ⟨j + 1, h⟩).Start =
        ((indexAudioAux B pts i pos l).get ⟨j, by omega⟩).Start +
        ((indexAudioAux B pts i pos l).get ⟨j, by omega⟩).Length := by
  intro l
  induction l with
  | nil => intro i pos j h; simp [indexAudioAux] at h
  | cons ct rest ih =>
    intro i pos j h
    cases j with
    | zero =>
      have hlen : 0 < (indexAudioAux B pts (i + 1) (pos + ((ct.length / B : Nat) : Int)) rest).length := by
        have := h
        simp only [indexAudioAux, List.length_cons] at this
        omega
      have hhead := indexAudioAux_head_start B pts rest (i + 1)
        (pos + ((ct.length / B : Nat) : Int)) hlen
      simpa [indexAudioAux] using hhead
    | succ j' =>
      have h' : j' + 1 < (indexAudioAux B pts (i + 1) (pos + ((ct.length / B : Nat) : Int)) rest).length := by
        have := h
        simp only [indexAudioAux, List.length_cons] at this
        omega
      have := ih (i + 1) (pos + ((ct.length / B : Nat) : Int)) j' h'
      simpa [indexAudioAux] using this

theorem audioTotalSamplesAux_sum (B : Nat) (pts : Nat → Int) :
    ∀ (l : List Content) (i : Nat) (pos : Int),
      audioTotalSamplesAux B pos l =
        pos + ((indexAudioAux B pts i pos l).map AudioFrameInfo.Length).sum := by
  intro l
  induction l with
  | nil => intro i pos; simp [audioTotalSamplesAux, indexAudioAux]
  | cons ct rest ih =>
    intro i pos
    simp only [audioTotalSamplesAux, indexAudioAux, List.map_cons, List.sum_cons]
    rw [ih (i + 1) (pos + ((ct.length / B : Nat) : Int))]
    ring

/-- C4. After successful audio indexing the index is sample-contiguous:
each frame's `Start` is the previous frame's `Start + Length`, and the
`NumSamples` property populated by the indexer equals the sum of all
per-frame `Length` values. -/
theorem audio_index_contiguous (B : Nat) (pts : Nat → Int) (stream : List Content) :
    (∀ (j : Nat) (h : j + 1 < (mkAudioIndex B pts stream).Frames.length),
      ((mkAudioIndex B pts stream).Frames.get ⟨j + 1, h⟩).Start =
        ((mkAudioIndex B pts stream).Frames.get ⟨j, by omega⟩).Start +
        ((mkAudioIndex B pts stream).Frames.get ⟨j, by omega⟩).Length) ∧
    audioNumSamples B stream =
      ((mkAudioIndex B pts stream).Frames.map AudioFrameInfo.Length).sum := by
  constructor
  · intro j h
    exact indexAudioAux_contiguous B pts stream 0 0 j h
  · simpa [audioNumSamples, mkAudioIndex] using
      audioTotalSamplesAux_sum B pts stream 0 0

/-- Witness for C4 at a concrete three-frame stream. -/
theorem audio_index_contiguous_witness :
    (((mkAudioIndex 2 (fun i => (i : Int)) [[1, 2], [3, 4, 5, 6], [7, 8]]).Frames.get
        ⟨0 + 1, by decide⟩).Start =
      ((mkAudioIndex 2 (fun i => (i : Int)) [[1, 2], [3, 4, 5, 6], [7, 8]]).Frames.get
        ⟨0, by decide⟩).Start +
      ((mkAudioIndex 2 (fun i => (i : Int)) [[1, 2], [3, 4, 5, 6], [7, 8]]).Frames.get
        ⟨0, by decide⟩).Length) ∧
    audioNumSamples 2 [[1, 2], [3, 4, 5, 6], [7, 8]] =
      ((mkAudioIndex 2 (fun i => (i : Int)) [[1, 2], [3, 4, 5, 6], [7, 8]]).Frames.map
        AudioFrameInfo.Length).sum :=
  ⟨(audio_index_contiguous 2 (fun i => (i : Int)) [[1, 2], [3, 4, 5, 6], [7, 8]]).1 0 (by decide),
   (audio_index_contiguous 2 (fun i => (i : Int)) [[1, 2], [3, 4, 5, 6], [7, 8]]).2⟩

/-! ## Video track index and RFF expansion (C7 in the spec) -/

/-- One entry of the video track index (`videosource.h` lines 195-201). -/
structure VideoFrameInfo where
  PTS : Int
  RepeatPict : Int
  KeyFrame : Bool
  TFF : Bool
  Hash : List Nat
  deriving DecidableEq, Repr

/-- The video track index (`videosource.h` lines 203-206). -/
structure VideoTrackIndex where
  LastFrameDuration : Int
  Frames : List VideoFrameInfo
  deriving DecidableEq, Repr

/-- The `RFFStateEnum` (`videosource.h` lines 236-238). -/
inductive RFFStateEnum where
  | Uninitialized : RFFStateEnum
  | Ready : RFFStateEnum
  | Unused : RFFStateEnum
  deriving DecidableEq, Repr

/-- Modelled from the spec: §4.7/§8.9 — the number of display fields an
underlying frame contributes: `max(repeat_pict, 0) + 2`. -/
def rffFieldCount (rp : Int) : Nat := (max rp 0).toNat + 2

/-- The flattened field sequence: frame `i` (counting from the offset)
contributes `rffFieldCount` copies of its index. -/
def rffFieldListAux : Nat → List VideoFrameInfo → List Nat
  | _, [] => []
  | i, f :: rest =>
    List.replicate (rffFieldCount f.RepeatPict) i ++ rffFieldListAux (i + 1) rest

def rffFieldList (frames : List VideoFrameInfo) : List Nat :=
  rffFieldListAux 0 frames

/-- Modelled from the spec: §4.7 — consecutive fields are paired into
display frames; a trailing unpaired field is completed from the same
frame. -/
def pairFields : List Nat → List (Nat × Nat)
  | [] => []
  | [a] => [(a, a)]
  | a :: b :: rest => (a, b) :: pairFields rest

/-- Modelled from the spec: §4.7/§8.9 — `num_rff_frames` is the total field
count halved and rounded. -/
def numRFFFrames (frames : List VideoFrameInfo) : Nat :=
  ((rffFieldList frames).length + 1) / 2

/-- Modelled from the spec: §4.7 — `InitializeRFF` (declared in
`videosource.h` line 266, implementation absent): if no frame carries an
RFF flag the state becomes `Unused`, otherwise the field map is computed
and the state becomes `Ready`. -/
def initializeRFF (frames : List VideoFrameInfo) : RFFStateEnum × List (Nat × Nat) :=
  if frames.all (fun f => f.RepeatPict ≤ 0) then (RFFStateEnum.Unused, [])
  else (RFFStateEnum.Ready, pairFields (rffFieldList frames))

theorem pairFields_length : ∀ l : List Nat, (pairFields l).length = (l.length + 1) / 2 := by
  intro l
  induction l using pairFields.induct with
  | case1 => rfl
  | case2 a => simp [pairFields]
  | case3 a b rest ih => simp [pairFields, ih]; omega

theorem pairFields_mem : ∀ (l : List Nat) (p : Nat × Nat), p ∈ pairFields l → p.1 ∈ l ∧ p.2 ∈ l := by
  intro l
  induction l using pairFields.induct with
  | case1 => intro p hp; simp [pairFields] at hp
  | case2 a => intro p hp; simp [pairFields] at hp; simp [hp]
  | case3 a b rest ih =>
    intro p hp
    simp only [pairFields, List.mem_cons] at hp
    rcases hp with rfl | hp
    · simp
    · have := ih p hp
      simp [this.1, this.2]

theorem rffFieldListAux_length :
    ∀ (l : List VideoFrameInfo) (i : Nat),
      (rffFieldListAux i l).length = (l.map (fun f => rffFieldCount f.RepeatPict)).sum := by
  intro l
  induction l with
  | nil => intro i; rfl
  | cons f rest ih => intro i; simp [rffFieldListAux, ih]

theorem rffFieldListAux_mem :
    ∀ (l : List VideoFrameInfo) (i : Nat) (x : Nat),
      x ∈ rffFieldListAux i l → i ≤ x ∧ x < i + l.length := by
  intro l
  induction l with
  | nil => intro i x hx; simp [rffFieldListAux] at hx
  | cons f rest ih =>
    intro i x hx
    simp only [rffFieldListAux, List.mem_append, List.mem_replicate] at hx
    rcases hx with ⟨_, rfl⟩ | hx
    · simp
    · have := ih (i + 1) x hx
      constructor
      · omega
      · simp only [List.length_cons]; omega

/-- C7. When the RFF field map is initialized (`RFFState = Ready`), the
number of field pairs equals `NumRFFFrames`, that count equals the sum over
all underlying frames of `max(repeat_pict, 0) + 2` halved and rounded, and
every frame index referenced by a pair is a valid underlying frame index. -/
theorem rff_fields_consistent (frames : List VideoFrameInfo)
    (h : (initializeRFF frames).1 = RFFStateEnum.Ready) :
    ((initializeRFF frames).2.length = numRFFFrames frames) ∧
    (numRFFFrames frames =
      ((frames.map (fun f => rffFieldCount f.RepeatPict)).sum + 1) / 2) ∧
    (∀ p ∈ (initializeRFF frames).2, p.1 < frames.length ∧ p.2 < frames.length) := by
  have hne : ¬ frames.all (fun f => f.RepeatPict ≤ 0) := by
    intro hall
    rw [initializeRFF, if_pos hall] at h
    exact absurd h (by decide)
  have h2 : (initializeRFF frames).2 = pairFields (rffFieldList frames) := by
    rw [initializeRFF, if_neg hne]
  refine ⟨?_, ?_, ?_⟩
  · rw [h2, pairFields_length, numRFFFrames]
  · rw [numRFFFrames, rffFieldList, rffFieldListAux_length frames 0]
  · intro p hp
    rw [h2] at hp
    have hmem := pairFields_mem (rffFieldList frames) p hp
    have h1 := rffFieldListAux_mem frames 0 p.1 hmem.1
    have hb := rffFieldListAux_mem frames 0 p.2 hmem.2
    omega

/-- Witness for C7 at a concrete three-frame telecine-like index. -/
theorem rff_fields_consistent_witness :
    ((initializeRFF [⟨0, 1, true, true, []⟩, ⟨1, 0, false, false, []⟩,
        ⟨2, 1, false, true, []⟩]).2.length =
      numRFFFrames [⟨0, 1, true, true, []⟩, ⟨1, 0, false, false, []⟩,
        ⟨2, 1, false, true, []⟩]) ∧
    (numRFFFrames [⟨0, 1, true, true, []⟩, ⟨1, 0, false, false, []⟩,
        ⟨2, 1, false, true, []⟩] =
      (([⟨0, 1, true, true, []⟩, ⟨1, 0, false, false, []⟩,
        (⟨2, 1, false, true, []⟩ : VideoFrameInfo)].map
          (fun f => rffFieldCount f.RepeatPict)).sum + 1) / 2) ∧
    (∀ p ∈ (initializeRFF [⟨0, 1, true, true, []⟩, ⟨1, 0, false, false, []⟩,
        ⟨2, 1, false, true, []⟩]).2,
      p.1 < 3 ∧ p.2 < 3) :=
  rff_fields_consistent
    [⟨0, 1, true, true, []⟩, ⟨1, 0, false, false, []⟩, ⟨2, 1, false, true, []⟩]
    (by decide)

/-! ## Persisted index I/O (C9 in the spec)

Modelled from the spec: §6.2/§4.9 — `WriteAudioTrackIndex` /
`ReadAudioTrackIndex` (`audiosource.h` lines 120-121) and
`WriteVideoTrackIndex` / `ReadVideoTrackIndex` (`videosource.h` lines
208-209) persist the track index as a little-endian versioned binary record
with a source-identity header and a trailing CRC32; implementations are
absent from the snapshot.  The byte stream is a `List Nat` of byte
values. -/

/-- Little-endian fixed-width encoding of a natural number. -/
def encNat : Nat → Nat → List Nat
  | 0, _ => []
  | w + 1, n => n % 256 :: encNat w (n / 256)

/-- Little-endian decoding of a byte list. -/
def decNat : List Nat → Nat
  | [] => 0
  | b :: rest => b % 256 + 256 * decNat rest

theorem encNat_length : ∀ (w n : Nat), (encNat w n).length = w := by
  intro w
  induction w with
  | zero => intro n; rfl
  | succ w ih => intro n; simp [encNat, ih]

theorem decNat_encNat : ∀ (w n : Nat), decNat (encNat w n) = n % 256 ^ w := by
  intro w
  induction w with
  | zero => intro n; simp [encNat, decNat, Nat.mod_one]
  | succ w ih =>
    intro n
    simp only [encNat, decNat, ih]
    rw [Nat.mod_mod_of_dvd n dvd_rfl, pow_succ, mul_comm (256 ^ w) 256, Nat.mod_mul]

/-- Consume exactly `w` raw bytes. -/
def readBytes (w : Nat) (s : List Nat) : Option (List Nat × List Nat) :=
  if w ≤ s.length then some (s.take w, s.drop w) else none

/-- Consume a `w`-byte little-endian natural number. -/
def readNat (w : Nat) (s : List Nat) : Option (Nat × List Nat) :=
  match readBytes w s with
  | some (bs, rest) => some (decNat bs, rest)
  | none => none

theorem readBytes_append (l rest : List Nat) :
    readBytes l.length (l ++ rest) = some (l, rest) := by
  rw [readBytes, if_pos (by simp)]
  rw [List.take_left, List.drop_left]

theorem readNat_append (w n : Nat) (rest : List Nat) :
    readNat w (encNat w n ++ rest) = some (n % 256 ^ w, rest) := by
  have h := readBytes_append (encNat w n) rest
  rw [encNat_length] at h
  rw [readNat, h]
  simp [decNat_encNat]

/-- Two's-complement int64 encoding (`v.emod 2^64` as 8 LE bytes). -/
def encInt64 (v : Int) : List Nat :=
  encNat 8 (v.emod 18446744073709551616).toNat

def decInt64 (n : Nat) : Int :=
  if n < 9223372036854775808 then (n : Int)
  else (n : Int) - 18446744073709551616

def readInt64 (s : List Nat) : Option (Int × List Nat) :=
  match readNat 8 s with
  | some (n, rest) => some (decInt64 n, rest)
  | none => none

/-- Two's-complement int32 encoding (4 LE bytes). -/
def encInt32 (v : Int) : List Nat :=
  encNat 4 (v.emod 4294967296).toNat

def decInt32 (n : Nat) : Int :=
  if n < 2147483648 then (n : Int) else (n : Int) - 4294967296

def readInt32 (s : List Nat) : Option (Int × List Nat) :=
  match readNat 4 s with
  | some (n, rest) => some (decInt32 n, rest)
  | none => none

/-- The representable range of a 64-bit signed value. -/
def WFInt64 (v : Int) : Prop :=
  -9223372036854775808 ≤ v ∧ v < 9223372036854775808

/-- The representable range of a 32-bit signed value. -/
def WFInt32 (v : Int) : Prop :=
  -2147483648 ≤ v ∧ v < 2147483648

instance (v : Int) : Decidable (WFInt64 v) := by unfold WFInt64; infer_instance

instance (v : Int) : Decidable (WFInt32 v) := by unfold WFInt32; infer_instance

theorem emod_eq_add_of_neg (v M : Int) (h1 : -M ≤ v) (h2 : v < 0) :
    v.emod M = v + M := by
  have hs : (v + M * 1).emod M = v.emod M := Int.add_mul_emod_self_left v M 1
  have h3 : (v + M * 1).emod M = v + M * 1 := Int.emod_eq_of_lt (by omega) (by omega)
  omega

theorem readInt64_append (v : Int) (rest : List Nat)
    (h1 : -9223372036854775808 ≤ v) (h2 : v < 9223372036854775808) :
    readInt64 (encInt64 v ++ rest) = some (v, rest) := by
  rw [readInt64, encInt64, readNat_append]
  have hpow : (256 : Nat) ^ 8 = 18446744073709551616 := by norm_num
  by_cases hv : 0 ≤ v
  · have hemod : v.emod 18446744073709551616 = v :=
      Int.emod_eq_of_lt hv (by omega)
    rw [hemod]
    have hval : decInt64 (v.toNat % 256 ^ 8) = v := by
      have hlt : v.toNat % 256 ^ 8 = v.toNat := by
        rw [hpow]; exact Nat.mod_eq_of_lt (by omega)
      rw [hlt]
      unfold decInt64
      rw [if_pos (by omega)]
      omega
    show some (decInt64 (v.toNat % 256 ^ 8), rest) = some (v, rest)
    rw [hval]
  · have hemod : v.emod 18446744073709551616 = v + 18446744073709551616 :=
      emod_eq_add_of_neg v 18446744073709551616 (by omega) (by omega)
    rw [hemod]
    have hval : decInt64 ((v + 18446744073709551616).toNat % 256 ^ 8) = v := by
      have hlt : (v + 18446744073709551616).toNat % 256 ^ 8 =
          (v + 18446744073709551616).toNat := by
        rw [hpow]; exact Nat.mod_eq_of_lt (by omega)
      rw [hlt]
      unfold decInt64
      rw [if_neg (by omega)]
      omega
    show some (decInt64 ((v + 18446744073709551616).toNat % 256 ^ 8), rest) = some (v, rest)
    rw [hval]

theorem readInt32_append (v : Int) (rest : List Nat)
    (h1 : -2147483648 ≤ v) (h2 : v < 2147483648) :
    readInt32 (encInt32 v ++ rest) = some (v, rest) := by
  rw [readInt32, encInt32, readNat_append]
  have hpow : (256 : Nat) ^ 4 = 4294967296 := by norm_num
  by_cases hv : 0 ≤ v
  · have hemod : v.emod 4294967296 = v := Int.emod_eq_of_lt hv (by omega)
    rw [hemod]
    have hval : decInt32 (v.toNat % 256 ^ 4) = v := by
      have hlt : v.toNat % 256 ^ 4 = v.toNat := by
        rw [hpow]; exact Nat.mod_eq_of_lt (by omega)
      rw [hlt]
      unfold decInt32
      rw [if_pos (by omega)]
      omega
    show some (decInt32 (v.toNat % 256 ^ 4), rest) = some (v, rest)
    rw [hval]
  · have hemod : v.emod 4294967296 = v + 4294967296 :=
      emod_eq_add_of_neg v 4294967296 (by omega) (by omega)
    rw [hemod]
    have hval : decInt32 ((v + 4294967296).toNat % 256 ^ 4) = v := by
      have hlt : (v + 4294967296).toNat % 256 ^ 4 = (v + 4294967296).toNat := by
        rw [hpow]; exact Nat.mod_eq_of_lt (by omega)
      rw [hlt]
      unfold decInt32
      rw [if_neg (by omega)]
      omega
    show some (decInt32 ((v + 4294967296).toNat % 256 ^ 4), rest) = some (v, rest)
    rw [hval]

/-- One-byte boolean encoding. -/
def encBool (b : Bool) : List Nat := [if b then 1 else 0]

def readBool (s : List Nat) : Option (Bool × List Nat) :=
  match s with
  | b :: rest => some (b != 0, rest)
  | [] => none

theorem readBool_append (b : Bool) (rest : List Nat) :
    readBool (encBool b ++ rest) = some (b, rest) := by
  cases b <;> rfl

/-- Modelled from the spec: §6.2 — CRC32 (reflected, poly `0xEDB88320`) over
the record body. -/
def crcIter : Nat → Nat → Nat
  | 0, c => c
  | k + 1, c => crcIter k (if c % 2 = 1 then (c / 2) ^^^ 0xEDB88320 else c / 2)

def crc32Byte (c b : Nat) : Nat := crcIter 8 (c ^^^ (b % 256))

def crc32 (l : List Nat) : Nat := 0xFFFFFFFF ^^^ l.foldl crc32Byte 0xFFFFFFFF

/-- Serialized form of one audio index entry: PTS, Start, Length (i64 LE)
and the 16-byte hash (§3.1). -/
def encAudioFrame (f : AudioFrameInfo) : List Nat :=
  encInt64 f.PTS ++ (encInt64 f.Start ++ (encInt64 f.Length ++ f.Hash))

def readAudioFrame (s : List Nat) : Option (AudioFrameInfo × List Nat) :=
  match readInt64 s with
  | none => none
  | some (pts, s1) =>
    match readInt64 s1 with
    | none => none
    | some (start, s2) =>
      match readInt64 s2 with
      | none => none
      | some (len, s3) =>
        match readBytes 16 s3 with
        | none => none
        | some (hash, s4) => some (⟨pts, start, len, hash⟩, s4)

def WFAudioFrame (f : AudioFrameInfo) : Prop :=
  WFInt64 f.PTS ∧ WFInt64 f.Start ∧ WFInt64 f.Length ∧ f.Hash.length = 16

instance (f : AudioFrameInfo) : Decidable (WFAudioFrame f) := by
  unfold WFAudioFrame; infer_instance

theorem readAudioFrame_append (f : AudioFrameInfo) (h : WFAudioFrame f)
    (rest : List Nat) :
    readAudioFrame (encAudioFrame f ++ rest) = some (f, rest) := by
  obtain ⟨⟨h1a, h1b⟩, ⟨h2a, h2b⟩, ⟨h3a, h3b⟩, h4⟩ := h
  have e4 : readBytes 16 (f.Hash ++ rest) = some (f.Hash, rest) := by
    have := readBytes_append f.Hash rest
    rw [h4] at this
    exact this
  rw [encAudioFrame]
  simp only [List.append_assoc]
  rw [readAudioFrame, readInt64_append f.PTS _ h1a h1b]
  show (match readInt64 (encInt64 f.Start ++ (encInt64 f.Length ++ (f.Hash ++ rest))) with
    | none => none
    | some (start, s2) =>
      match readInt64 s2 with
      | none => none
      | some (len, s3) =>
        match readBytes 16 s3 with
        | none => none
        | some (hash, s4) => some ((⟨f.PTS, start, len, hash⟩ : AudioFrameInfo), s4)) =
      some (f, rest)
  rw [readInt64_append f.Start _ h2a h2b]
  show (match readInt64 (encInt64 f.Length ++ (f.Hash ++ rest)) with
    | none => none
    | some (len, s3) =>
      match readBytes 16 s3 with
      | none => none
      | some (hash, s4) => some ((⟨f.PTS, f.Start, len, hash⟩ : AudioFrameInfo), s4)) =
      some (f, rest)
  rw [readInt64_append f.Length _ h3a h3b]
  show (match readBytes 16 (f.Hash ++ rest) with
    | none => none
    | some (hash, s4) => some ((⟨f.PTS, f.Start, f.Length, hash⟩ : AudioFrameInfo), s4)) =
      some (f, rest)
  rw [e4]

def encAudioFrames (l : List AudioFrameInfo) : List Nat :=
  (l.map encAudioFrame).flatten

def readAudioFrames : Nat → List Nat → Option (List AudioFrameInfo × List Nat)
  | 0, s => some ([], s)
  | k + 1, s =>
    match readAudioFrame s with
    | none => none
    | some (f, s1) =>
      match readAudioFrames k s1 with
      | none => none
      | some (fs, s2) => some (f :: fs, s2)

theorem readAudioFrames_append :
    ∀ (l : List AudioFrameInfo), (∀ f ∈ l, WFAudioFrame f) → ∀ rest : List Nat,
      readAudioFrames l.length (encAudioFrames l ++ rest) = some (l, rest) := by
  intro l
  induction l with
  | nil => intro _ rest; rfl
  | cons f fs ih =>
    intro hwf rest
    have hflat : encAudioFrames (f :: fs) = encAudioFrame f ++ encAudioFrames fs := by
      simp [encAudioFrames]
    rw [List.length_cons, hflat, List.append_assoc]
    rw [readAudioFrames, readAudioFrame_append f (hwf f (by simp)) _]
    show (match readAudioFrames fs.length (encAudioFrames fs ++ rest) with
      | none => none
      | some (gs, s2) => some (f :: gs, s2)) = some (f :: fs, rest)
    rw [ih (fun g hg => hwf g (by simp [hg])) rest]

/-- Serialized form of one video index entry: PTS (i64), RepeatPict (i32),
KeyFrame, TFF (one byte each) and the 16-byte hash (§3.1). -/
def encVideoFrame (f : VideoFrameInfo) : List Nat :=
  encInt64 f.PTS ++ (encInt32 f.RepeatPict ++ (encBool f.KeyFrame ++ (encBool f.TFF ++ f.Hash)))

def readVideoFrame (s : List Nat) : Option (VideoFrameInfo × List Nat) :=
  match readInt64 s with
  | none => none
  | some (pts, s1) =>
    match readInt32 s1 with
    | none => none
    | some (rp, s2) =>
      match readBool s2 with
      | none => none
      | some (kf, s3) =>
        match readBool s3 with
        | none => none
        | some (tff, s4) =>
          match readBytes 16 s4 with
          | none => none
          | some (hash, s5) => some (⟨pts, rp, kf, tff, hash⟩, s5)

def WFVideoFrame (f : VideoFrameInfo) : Prop :=
  WFInt64 f.PTS ∧ WFInt32 f.RepeatPict ∧ f.Hash.length = 16

instance (f : VideoFrameInfo) : Decidable (WFVideoFrame f) := by
  unfold WFVideoFrame; infer_instance

theorem readVideoFrame_append (f : VideoFrameInfo) (h : WFVideoFrame f)
    (rest : List Nat) :
    readVideoFrame (encVideoFrame f ++ rest) = some (f, rest) := by
  obtain ⟨⟨h1a, h1b⟩, ⟨h2a, h2b⟩, h4⟩ := h
  have e5 : readBytes 16 (f.Hash ++ rest) = some (f.Hash, rest) := by
    have := readBytes_append f.Hash rest
    rw [h4] at this
    exact this
  rw [encVideoFrame]
  simp only [List.append_assoc]
  rw [readVideoFrame, readInt64_append f.PTS _ h1a h1b]
  show (match readInt32 (encInt32 f.RepeatPict ++ (encBool f.KeyFrame ++ (encBool f.TFF ++ (f.Hash ++ rest)))) with
    | none => none
    | some (rp, s2) =>
      match readBool s2 with
      | none => none
      | some (kf, s3) =>
        match readBool s3 with
        | none => none
        | some (tff, s4) =>
          match readBytes 16 s4 with
          | none => none
          | some (hash, s5) => some ((⟨f.PTS, rp, kf, tff, hash⟩ : VideoFrameInfo), s5)) =
      some (f, rest)
  rw [readInt32_append f.RepeatPict _ h2a h2b]
  show (match readBool (encBool f.KeyFrame ++ (encBool f.TFF ++ (f.Hash ++ rest))) with
    | none => none
    | some (kf, s3) =>
      match readBool s3 with
      | none => none
      | some (tff, s4) =>
        match readBytes 16 s4 with
        | none => none
        | some (hash, s5) => some ((⟨f.PTS, f.RepeatPict, kf, tff, hash⟩ : VideoFrameInfo), s5)) =
      some (f, rest)
  rw [readBool_append]
  show (match readBool (encBool f.TFF ++ (f.Hash ++ rest)) with
    | none => none
    | some (tff, s4) =>
      match readBytes 16 s4 with
      | none => none
      | some (hash, s5) => some ((⟨f.PTS, f.RepeatPict, f.KeyFrame, tff, hash⟩ : VideoFrameInfo), s5)) =
      some (f, rest)
  rw [readBool_append]
  show (match readBytes 16 (f.Hash ++ rest) with
    | none => none
    | some (hash, s5) => some ((⟨f.PTS, f.RepeatPict, f.KeyFrame, f.TFF, hash⟩ : VideoFrameInfo), s5)) =
      some (f, rest)
  rw [e5]

def encVideoFrames (l : List VideoFrameInfo) : List Nat :=
  (l.map encVideoFrame).flatten

def readVideoFrames : Nat → List Nat → Option (List VideoFrameInfo × List Nat)
  | 0, s => some ([], s)
  | k + 1, s =>
    match readVideoFrame s with
    | none => none
    | some (f, s1) =>
      match readVideoFrames k s1 with
      | none => none
      | some (fs, s2) => some (f :: fs, s2)

theorem readVideoFrames_append :
    ∀ (l : List VideoFrameInfo), (∀ f ∈ l, WFVideoFrame f) → ∀ rest : List Nat,
      readVideoFrames l.length (encVideoFrames l ++ rest) = some (l, rest) := by
  intro l
  induction l with
  | nil => intro _ rest; rfl
  | cons f fs ih =>
    intro hwf rest
    have hflat : encVideoFrames (f :: fs) = encVideoFrame f ++ encVideoFrames fs := by
      simp [encVideoFrames]
    rw [List.length_cons, hflat, List.append_assoc]
    rw [readVideoFrames, readVideoFrame_append f (hwf f (by simp)) _]
    show (match readVideoFrames fs.length (encVideoFrames fs ++ rest) with
      | none => none
      | some (gs, s2) => some (f :: gs, s2)) = some (f :: fs, rest)
    rw [ih (fun g hg => hwf g (by simp [hg])) rest]

/-- The source-identity header fields (spec §4.9/§6.2): source size,
modification time, track number and codec-parameters fingerprint. -/
structure SourceIdent where
  sourceSize : Int
  sourceMtime : Int
  track : Int
  codecFingerprint : List Nat
  deriving DecidableEq, Repr

def bsMagic : List Nat := [66, 83, 73, 49]

def bsVersion : Nat := 1

def WFIdent (ident : SourceIdent) : Prop :=
  WFInt64 ident.sourceSize ∧ WFInt64 ident.sourceMtime ∧ WFInt32 ident.track ∧
    ident.codecFingerprint.length < 4294967296

instance (ident : SourceIdent) : Decidable (WFIdent ident) := by
  unfold WFIdent; infer_instance

/-- The record body of a persisted audio index (spec §6.2):
`magic | version | source_size | source_mtime | track | fingerprint
 | frame_count | frames`. -/
def audioIndexBody (ident : SourceIdent) (idx : AudioTrackIndex) : List Nat :=
  bsMagic ++ (encNat 4 bsVersion ++ (encInt64 ident.sourceSize ++
    (encInt64 ident.sourceMtime ++ (encInt32 ident.track ++
    (encNat 4 ident.codecFingerprint.length ++ (ident.codecFingerprint ++
    (encNat 8 idx.Frames.length ++ encAudioFrames idx.Frames)))))))

/-- Modelled from the spec: §6.2 — `WriteAudioTrackIndex` appends the CRC32
of everything above. -/
def WriteAudioTrackIndex (ident : SourceIdent) (idx : AudioTrackIndex) : List Nat :=
  audioIndexBody ident idx ++ encNat 4 (crc32 (audioIndexBody ident idx))

/-- Parse the audio record body, validating magic, version and every
source-identity field (spec §4.9: accepted only if all header fields match
exactly). -/
def parseAudioBody (ident : SourceIdent) (s : List Nat) : Option AudioTrackIndex :=
  match readBytes 4 s with
  | none => none
  | some (magic, s1) =>
    if magic = bsMagic then
      match readNat 4 s1 with
      | none => none
      | some (ver, s2) =>
        if ver = bsVersion then
          match readInt64 s2 with
          | none => none
          | some (ssize, s3) =>
            if ssize = ident.sourceSize then
              match readInt64 s3 with
              | none => none
              | some (mtime, s4) =>
                if mtime = ident.sourceMtime then
                  match readInt32 s4 with
                  | none => none
                  | some (track, s5) =>
                    if track = ident.track then
                      match readNat 4 s5 with
                      | none => none
                      | some (fplen, s6) =>
                        match readBytes fplen s6 with
                        | none => none
                        | some (fp, s7) =>
                          if fp = ident.codecFingerprint then
                            match readNat 8 s7 with
                            | none => none
                            | some (cnt, s8) =>
                              match readAudioFrames cnt s8 with
                              | none => none
                              | some (frames, s9) =>
                                if s9 = [] then some ⟨frames⟩ else none
                          else none
                    else none
                else none
            else none
        else none
    else none

/-- Modelled from the spec: §4.9/§6.2 — `ReadAudioTrackIndex` checks the
trailing CRC32 over the body and parses the body. -/
def ReadAudioTrackIndex (ident : SourceIdent) (file : List Nat) : Option AudioTrackIndex :=
  if file.drop (file.length - 4) = encNat 4 (crc32 (file.take (file.length - 4)))
  then parseAudioBody ident (file.take (file.length - 4))
  else none

def WFAudioIndex (idx : AudioTrackIndex) : Prop :=
  idx.Frames.length < 18446744073709551616 ∧ ∀ f ∈ idx.Frames, WFAudioFrame f

instance (idx : AudioTrackIndex) : Decidable (WFAudioIndex idx) := by
  unfold WFAudioIndex; infer_instance

theorem read_write_audio (ident : SourceIdent) (idx : AudioTrackIndex)
    (hid : WFIdent ident) (hidx : WFAudioIndex idx) :
    ReadAudioTrackIndex ident (WriteAudioTrackIndex ident idx) = some idx := by
  obtain ⟨hss, hmt, htr, hfp⟩ := hid
  obtain ⟨hcnt, hfr⟩ := hidx
  rw [WriteAudioTrackIndex, ReadAudioTrackIndex]
  have hlen4 : (encNat 4 (crc32 (audioIndexBody ident idx))).length = 4 :=
    encNat_length _ _
  have hsub : (audioIndexBody ident idx ++
      encNat 4 (crc32 (audioIndexBody ident idx))).length - 4 =
      (audioIndexBody ident idx).length := by
    rw [List.length_append, hlen4]
    omega
  rw [hsub, List.take_left, List.drop_left, if_pos rfl]
  have e_magic : ∀ r : List Nat, readBytes 4 (bsMagic ++ r) = some (bsMagic, r) := by
    intro r
    have := readBytes_append bsMagic r
    simpa [bsMagic] using this
  have e_ver : ∀ r : List Nat, readNat 4 (encNat 4 bsVersion ++ r) = some (bsVersion, r) := by
    intro r
    rw [readNat_append]
    norm_num [bsVersion]
  have e_ss : ∀ r : List Nat, readInt64 (encInt64 ident.sourceSize ++ r) =
      some (ident.sourceSize, r) := fun r => readInt64_append _ r hss.1 hss.2
  have e_mt : ∀ r : List Nat, readInt64 (encInt64 ident.sourceMtime ++ r) =
      some (ident.sourceMtime, r) := fun r => readInt64_append _ r hmt.1 hmt.2
  have e_tr : ∀ r : List Nat, readInt32 (encInt32 ident.track ++ r) =
      some (ident.track, r) := fun r => readInt32_append _ r htr.1 htr.2
  have e_fp1 : ∀ r : List Nat, readNat 4 (encNat 4 ident.codecFingerprint.length ++ r) =
      some (ident.codecFingerprint.length, r) := by
    intro r
    rw [readNat_append]
    congr 2
    exact Nat.mod_eq_of_lt (by norm_num; omega)
  have e_fp2 : ∀ r : List Nat, readBytes ident.codecFingerprint.length
      (ident.codecFingerprint ++ r) = some (ident.codecFingerprint, r) :=
    fun r => readBytes_append _ r
  have e_cnt : ∀ r : List Nat, readNat 8 (encNat 8 idx.Frames.length ++ r) =
      some (idx.Frames.length, r) := by
    intro r
    rw [readNat_append]
    congr 2
    exact Nat.mod_eq_of_lt (by norm_num; omega)
  have e_frames : readAudioFrames idx.Frames.length (encAudioFrames idx.Frames) =
      some (idx.Frames, []) := by
    have := readAudioFrames_append idx.Frames hfr []
    rwa [List.append_nil] at this
  rw [audioIndexBody, parseAudioBody]
  simp only [e_magic, e_ver, e_ss, e_mt, e_tr, e_fp1, e_fp2, e_cnt, e_frames]
  simp

/-- The record body of a persisted video index (spec §6.2): as audio, with
the trailing `last_frame_duration` field after the frames. -/
def videoIndexBody (ident : SourceIdent) (idx : VideoTrackIndex) : List Nat :=
  bsMagic ++ (encNat 4 bsVersion ++ (encInt64 ident.sourceSize ++
    (encInt64 ident.sourceMtime ++ (encInt32 ident.track ++
    (encNat 4 ident.codecFingerprint.length ++ (ident.codecFingerprint ++
    (encNat 8 idx.Frames.length ++ (encVideoFrames idx.Frames ++
    encInt64 idx.LastFrameDuration))))))))

/-- Modelled from the spec: §6.2 — `WriteVideoTrackIndex` appends the CRC32
of everything above. -/
def WriteVideoTrackIndex (ident : SourceIdent) (idx : VideoTrackIndex) : List Nat :=
  videoIndexBody ident idx ++ encNat 4 (crc32 (videoIndexBody ident idx))

/-- Parse the video record body (header validation as for audio, then
frames and the trailing `last_frame_duration`). -/
def parseVideoBody (ident : SourceIdent) (s : List Nat) : Option VideoTrackIndex :=
  match readBytes 4 s with
  | none => none
  | some (magic, s1) =>
    if magic = bsMagic then
      match readNat 4 s1 with
      | none => none
      | some (ver, s2) =>
        if ver = bsVersion then
          match readInt64 s2 with
          | none => none
          | some (ssize, s3) =>
            if ssize = ident.sourceSize then
              match readInt64 s3 with
              | none => none
              | some (mtime, s4) =>
                if mtime = ident.sourceMtime then
                  match readInt32 s4 with
                  | none => none
                  | some (track, s5) =>
                    if track = ident.track then
                      match readNat 4 s5 with
                      | none => none
                      | some (fplen, s6) =>
                        match readBytes fplen s6 with
                        | none => none
                        | some (fp, s7) =>
                          if fp = ident.codecFingerprint then
                            match readNat 8 s7 with
                            | none => none
                            | some (cnt, s8) =>
                              match readVideoFrames cnt s8 with
                              | none => none
                              | some (frames, s9) =>
                                match readInt64 s9 with
                                | none => none
                                | some (lfd, s10) =>
                                  if s10 = [] then some ⟨lfd, frames⟩ else none
                          else none
                    else none
                else none
            else none
        else none
    else none

/-- Modelled from the spec: §4.9/§6.2 — `ReadVideoTrackIndex` checks the
trailing CRC32 over the body and parses the body. -/
def ReadVideoTrackIndex (ident : SourceIdent) (file : List Nat) : Option VideoTrackIndex :=
  if file.drop (file.length - 4) = encNat 4 (crc32 (file.take (file.length - 4)))
  then parseVideoBody ident (file.take (file.length - 4))
  else none

def WFVideoIndex (idx : VideoTrackIndex) : Prop :=
  WFInt64 idx.LastFrameDuration ∧ idx.Frames.length < 18446744073709551616 ∧
    ∀ f ∈ idx.Frames, WFVideoFrame f

instance (idx : VideoTrackIndex) : Decidable (WFVideoIndex idx) := by
  unfold WFVideoIndex; infer_instance

theorem read_write_video (ident : SourceIdent) (idx : VideoTrackIndex)
    (hid : WFIdent ident) (hidx : WFVideoIndex idx) :
    ReadVideoTrackIndex ident (WriteVideoTrackIndex ident idx) = some idx := by
  obtain ⟨hss, hmt, htr, hfp⟩ := hid
  obtain ⟨hlfd, hcnt, hfr⟩ := hidx
  rw [WriteVideoTrackIndex, ReadVideoTrackIndex]
  have hlen4 : (encNat 4 (crc32 (videoIndexBody ident idx))).length = 4 :=
    encNat_length _ _
  have hsub : (videoIndexBody ident idx ++
      encNat 4 (crc32 (videoIndexBody ident idx))).length - 4 =
      (videoIndexBody ident idx).length := by
    rw [List.length_append, hlen4]
    omega
  rw [hsub, List.take_left, List.drop_left, if_pos rfl]
  have e_magic : ∀ r : List Nat, readBytes 4 (bsMagic ++ r) = some (bsMagic, r) := by
    intro r
    have := readBytes_append bsMagic r
    simpa [bsMagic] using this
  have e_ver : ∀ r : List Nat, readNat 4 (encNat 4 bsVersion ++ r) = some (bsVersion, r) := by
    intro r
    rw [readNat_append]
    norm_num [bsVersion]
  have e_ss : ∀ r : List Nat, readInt64 (encInt64 ident.sourceSize ++ r) =
      some (ident.sourceSize, r) := fun r => readInt64_append _ r hss.1 hss.2
  have e_mt : ∀ r : List Nat, readInt64 (encInt64 ident.sourceMtime ++ r) =
      some (ident.sourceMtime, r) := fun r => readInt64_append _ r hmt.1 hmt.2
  have e_tr : ∀ r : List Nat, readInt32 (encInt32 ident.track ++ r) =
      some (ident.track, r) := fun r => readInt32_append _ r htr.1 htr.2
  have e_fp1 : ∀ r : List Nat, readNat 4 (encNat 4 ident.codecFingerprint.length ++ r) =
      some (ident.codecFingerprint.length, r) := by
    intro r
    rw [readNat_append]
    congr 2
    exact Nat.mod_eq_of_lt (by norm_num; omega)
  have e_fp2 : ∀ r : List Nat, readBytes ident.codecFingerprint.length
      (ident.codecFingerprint ++ r) = some (ident.codecFingerprint, r) :=
    fun r => readBytes_append _ r
  have e_cnt : ∀ r : List Nat, readNat 8 (encNat 8 idx.Frames.length ++ r) =
      some (idx.Frames.length, r) := by
    intro r
    rw [readNat_append]
    congr 2
    exact Nat.mod_eq_of_lt (by norm_num; omega)
  have e_frames : readVideoFrames idx.Frames.length
      (encVideoFrames idx.Frames ++ encInt64 idx.LastFrameDuration) =
      some (idx.Frames, encInt64 idx.LastFrameDuration) :=
    readVideoFrames_append idx.Frames hfr _
  have e_lfd : readInt64 (encInt64 idx.LastFrameDuration) =
      some (idx.LastFrameDuration, []) := by
    have := readInt64_append idx.LastFrameDuration [] hlfd.1 hlfd.2
    rwa [List.append_nil] at this
  rw [videoIndexBody, parseVideoBody]
  simp only [e_magic, e_ver, e_ss, e_mt, e_tr, e_fp1, e_fp2, e_cnt, e_frames, e_lfd]
  simp

/-- C8. The track index round-trips through persistence: for every
well-formed source identity and track index, reading back a written index
yields an index equal to the original, including every per-frame field and,
for video, `LastFrameDuration`. -/
theorem index_roundtrip :
    (∀ (ident : SourceIdent) (idx : AudioTrackIndex), WFIdent ident → WFAudioIndex idx →
      ReadAudioTrackIndex ident (WriteAudioTrackIndex ident idx) = some idx) ∧
    (∀ (ident : SourceIdent) (idx : VideoTrackIndex), WFIdent ident → WFVideoIndex idx →
      ReadVideoTrackIndex ident (WriteVideoTrackIndex ident idx) = some idx) :=
  ⟨read_write_audio, read_write_video⟩

/-- Witness for C8: a concrete identity and concrete one-frame indices
round-trip. -/
theorem index_roundtrip_witness :
    ReadAudioTrackIndex ⟨1000, 77, 2, [9, 8]⟩
      (WriteAudioTrackIndex ⟨1000, 77, 2, [9, 8]⟩
        ⟨[⟨-5, 0, 960, List.replicate 16 3⟩]⟩) =
      some ⟨[⟨-5, 0, 960, List.replicate 16 3⟩]⟩ ∧
    ReadVideoTrackIndex ⟨1000, 77, 2, [9, 8]⟩
      (WriteVideoTrackIndex ⟨1000, 77, 2, [9, 8]⟩
        ⟨417, [⟨-3, 1, true, false, List.replicate 16 4⟩]⟩) =
      some ⟨417, [⟨-3, 1, true, false, List.replicate 16 4⟩]⟩ :=
  ⟨index_roundtrip.1 ⟨1000, 77, 2, [9, 8]⟩ ⟨[⟨-5, 0, 960, List.replicate 16 3⟩]⟩
      (by decide) (by decide),
   index_roundtrip.2 ⟨1000, 77, 2, [9, 8]⟩ ⟨417, [⟨-3, 1, true, false, List.replicate 16 4⟩]⟩
      (by decide) (by decide)⟩

/-! ## Seek/retry decode engine (C5 in the spec)

Modelled from the spec: §4.5 — `GetFrame`, `GetFrameInternal`,
`GetFrameLinearInternal`, `SeekAndDecode`, `GetSeekFrame` and
`SetLinearMode` (declared in `audiosource.h` lines 156-168 and
`videosource.h` lines 252-264; implementations absent).  The decoder is
deterministic: the cursor at position `p` decodes `stream[p]` next.
Container seek behaviour (where a seek to a key frame's PTS actually
resyncs, after §4.5.5 hash-based identity resolution) is an oracle fixed
per source; `none` models a landing whose hash matches no index entry. -/

def MaxVideoSources : Nat := 4

/-- The retry budget `RetrySeekAttempts` (`audiosource.h` line 162 / `videosource.h` line 258). -/
def RetrySeekAttempts : Nat := 10

structure SourceConfig where
  stream : List Content
  keyFrame : Nat → Bool
  seekLand : Nat → Option Nat
  maxSkip : Nat

def numFrames (cfg : SourceConfig) : Nat := cfg.stream.length

/-- The decoded content of frame `n` (decoding is deterministic). -/
def frameContent (cfg : SourceConfig) (n : Nat) : Content := cfg.stream.getD n []

/-- The mutable per-source state: decoder-pool positions (MRU first), frame
cache, bad-seek set, linear-mode flag, seek pre-roll, and counters of the
`Seek` calls issued and frames decoded on decoder cursors. -/
structure MutState where
  decoders : List Nat
  cache : Cache
  badSeek : List Nat
  linearMode : Bool
  preRoll : Nat
  seeks : Nat
  decodes : Nat
  deriving DecidableEq, Repr

/-- Pick the cursor with the largest position at most `n` (spec §4.3). -/
def pickCursor (n : Nat) : List Nat → Option Nat
  | [] => none
  | p :: rest =>
    match pickCursor n rest with
    | none => if p ≤ n then some p else none
    | some q => if p ≤ n ∧ q < p then some p else some q

/-- Reposition a used cursor and move it to the MRU slot. -/
def useCursor (ds : List Nat) (oldPos newPos : Nat) : List Nat :=
  newPos :: ds.erase oldPos

/-- Open a fresh cursor, evicting the LRU slot beyond the pool bound. -/
def addCursor (ds : List Nat) (pos : Nat) : List Nat :=
  pos :: ds.take (MaxVideoSources - 1)

/-- Cache every decoded frame `p ..= n` (spec §4.5.2 step 7). -/
def cacheRange (cfg : SourceConfig) (c : Cache) (p n : Nat) : Cache :=
  (List.range' p (n + 1 - p)).foldl (fun c i => c.cacheFrame i (frameContent cfg i)) c

/-- Modelled from the spec: §4.5.3 — linear retrieval: rewind to the nearest
cursor at or before `n` (else open a new cursor at frame 0) and decode
forward, caching intermediate frames.  No seeks; no bad-seek updates. -/
def getFrameLinearM (cfg : SourceConfig) (ms : MutState) (n : Nat) : Content × MutState :=
  match pickCursor n ms.decoders with
  | some p =>
    (frameContent cfg n,
     {ms with decoders := useCursor ms.decoders p (n + 1),
              cache := cacheRange cfg ms.cache p n,
              decodes := ms.decodes + (n + 1 - p)})
  | none =>
    (frameContent cfg n,
     {ms with decoders := addCursor ms.decoders (n + 1),
              cache := cacheRange cfg ms.cache 0 n,
              decodes := ms.decodes + (n + 1)})

/-- Modelled from the spec: §4.5.2 step 3 — the latest indexed key frame at
or before `n - PreRoll` that is not a known-bad seek location. -/
def findSeekFrame (cfg : SourceConfig) (bad : List Nat) : Nat → Option Nat
  | 0 => if cfg.keyFrame 0 ∧ 0 ∉ bad then some 0 else none
  | k + 1 =>
    if cfg.keyFrame (k + 1) ∧ (k + 1) ∉ bad then some (k + 1)
    else findSeekFrame cfg bad k

def getSeekFrame (cfg : SourceConfig) (ms : MutState) (n : Nat) : Option Nat :=
  if n < ms.preRoll then none
  else findSeekFrame cfg ms.badSeek (n - ms.preRoll)

/-- The result of one frame retrieval: the content, the new state, and
whether the retry budget was exhausted during the call (the event that
enters linear mode). -/
structure FrameResult where
  content : Content
  state : MutState
  exhausted : Bool
  deriving DecidableEq, Repr

/-- Modelled from the spec: §4.5.2 steps 3-7 — seek, resync by content-hash
identity, validate the landing, blacklist and retry on failure; on budget
exhaustion enter linear mode permanently, discard all cursors and restart
linearly. -/
def retrySeek (cfg : SourceConfig) (n : Nat) : Nat → MutState → FrameResult
  | 0, ms =>
    ⟨(getFrameLinearM cfg {ms with linearMode := true, decoders := []} n).1,
     (getFrameLinearM cfg {ms with linearMode := true, decoders := []} n).2, true⟩
  | b + 1, ms =>
    match getSeekFrame cfg ms n with
    | none =>
      ⟨(getFrameLinearM cfg ms n).1, (getFrameLinearM cfg ms n).2, false⟩
    | some sf =>
      match cfg.seekLand sf with
      | some p =>
        if sf ≤ p ∧ p ≤ n then
          ⟨frameContent cfg n,
           {ms with seeks := ms.seeks + 1,
                    decoders := addCursor ms.decoders (n + 1),
                    cache := cacheRange cfg ms.cache p n,
                    decodes := ms.decodes + (n + 1 - p)},
           false⟩
        else retrySeek cfg n b {ms with seeks := ms.seeks + 1, badSeek := sf :: ms.badSeek}
      | none => retrySeek cfg n b {ms with seeks := ms.seeks + 1, badSeek := sf :: ms.badSeek}

/-- Modelled from the spec: §4.5.2 — random-mode retrieval: cache probe,
then cursor fast-forward when close enough, then the seek/retry loop. -/
def getFrameRandomM (cfg : SourceConfig) (ms : MutState) (n : Nat) : FrameResult :=
  match ms.cache.getFrame n with
  | (some c, cache1) => ⟨c, {ms with cache := cache1}, false⟩
  | (none, cache1) =>
    match pickCursor n ms.decoders with
    | some p =>
      if n - p ≤ ms.preRoll + cfg.maxSkip then
        ⟨frameContent cfg n,
         {ms with cache := cacheRange cfg cache1 p n,
                  decoders := useCursor ms.decoders p (n + 1),
                  decodes := ms.decodes + (n + 1 - p)},
         false⟩
      else retrySeek cfg n RetrySeekAttempts {ms with cache := cache1}
    | none => retrySeek cfg n RetrySeekAttempts {ms with cache := cache1}

inductive BSError where
  | RangeError : BSError
  | DecodeError : BSError
  deriving DecidableEq, Repr

/-- Modelled from the spec: §4.5/§7 — `GetFrame(N, Linear)` with the
exhaustion event exposed: out-of-range indices fail with `RangeError`
without touching the state; otherwise the linear or random algorithm
runs. -/
def GetFrameEx (cfg : SourceConfig) (ms : MutState) (N : Int) (linear : Bool) :
    Except BSError Content × MutState × Bool :=
  if N < 0 ∨ (numFrames cfg : Int) ≤ N then (.error .RangeError, ms, false)
  else
    if ms.linearMode || linear then
      (.ok (getFrameLinearM cfg ms N.toNat).1, (getFrameLinearM cfg ms N.toNat).2, false)
    else
      (.ok (getFrameRandomM cfg ms N.toNat).content, (getFrameRandomM cfg ms N.toNat).state,
        (getFrameRandomM cfg ms N.toNat).exhausted)

/-- The public `GetFrame` (drops the internal exhaustion flag). -/
def GetFrame (cfg : SourceConfig) (ms : MutState) (N : Int) (linear : Bool) :
    Except BSError Content × MutState :=
  ((GetFrameEx cfg ms N linear).1, (GetFrameEx cfg ms N linear).2.1)

/-- The method `BestAudioSource::GetFrame` (`audiosource.h` line 190): the engine
instantiated for audio. -/
def BestAudioSource.GetFrame (cfg : SourceConfig) (ms : MutState) (N : Int)
    (linear : Bool) : Except BSError Content × MutState :=
  BestSource.GetFrame cfg ms N linear

/-- The method `BestVideoSource::GetFrame` (`videosource.h` line 273): the engine
instantiated for video. -/
def BestVideoSource.GetFrame (cfg : SourceConfig) (ms : MutState) (N : Int)
    (linear : Bool) : Except BSError Content × MutState :=
  BestSource.GetFrame cfg ms N linear

/-- Fresh audio-source state: `PreRoll = 40` (`audiosource.h` line 160). -/
def BestAudioSource.initState : MutState := ⟨[], Cache.init, [], false, 40, 0, 0⟩

/-- Fresh video-source state: `PreRoll = 20` (`videosource.h` line 256). -/
def BestVideoSource.initState : MutState := ⟨[], Cache.init, [], false, 20, 0, 0⟩

/-- The method `SetMaxCacheSize` (`audiosource.h` line 186 / `videosource.h` line 270). -/
def SetMaxCacheSize (ms : MutState) (bytes : Nat) : MutState :=
  {ms with cache := ms.cache.setMaxSize bytes}

/-- The method `SetSeekPreRoll` (`audiosource.h` line 187 / `videosource.h` line 271). -/
def SetSeekPreRoll (ms : MutState) (fr : Nat) : MutState :=
  {ms with preRoll := fr}

/-- The modelled mutating public operations of a source. -/
inductive SrcOp where
  | getFrame (N : Int) (linear : Bool) : SrcOp
  | setMaxCacheSize (bytes : Nat) : SrcOp
  | setSeekPreRoll (fr : Nat) : SrcOp

def stepOp (cfg : SourceConfig) (op : SrcOp) (ms : MutState) : MutState :=
  match op with
  | .getFrame N linear => (GetFrame cfg ms N linear).2
  | .setMaxCacheSize b => SetMaxCacheSize ms b
  | .setSeekPreRoll f => SetSeekPreRoll ms f

def runOps (cfg : SourceConfig) (ops : List SrcOp) (ms : MutState) : MutState :=
  ops.foldl (fun ms op => stepOp cfg op ms) ms

/-! ### Engine invariant: every cached block holds the true decoded content
of a valid frame index. -/

def cacheOK (cfg : SourceConfig) (c : Cache) : Prop :=
  ∀ b ∈ c.data, b.frameNumber < numFrames cfg ∧ b.frame = frameContent cfg b.frameNumber

theorem cacheOK_cacheFrame {cfg : SourceConfig} {c : Cache} {n : Nat} {f : Content}
    (h : cacheOK cfg c) (hn : n < numFrames cfg) (hf : f = frameContent cfg n) :
    cacheOK cfg (c.cacheFrame n f) := by
  intro b hb
  rw [Cache.cacheFrame] at hb
  by_cases hm : c.maxSize = 0
  · rw [if_pos hm] at hb
    exact h b hb
  · rw [if_neg hm] at hb
    have hb2 : b ∈ evictRevAdmit c.maxSize ((mkCacheBlock n f :: c.data).reverse) := by
      simpa using hb
    have hb3 : b ∈ (mkCacheBlock n f :: c.data).reverse :=
      (evictRevAdmit_sublist _ _).subset hb2
    have hb4 : b = mkCacheBlock n f ∨ b ∈ c.data := by
      simpa [or_comm] using hb3
    rcases hb4 with rfl | hb4
    · exact ⟨by simpa [mkCacheBlock] using hn, by simp [mkCacheBlock, hf]⟩
    · exact h b hb4

theorem cacheOK_setMaxSize {cfg : SourceConfig} {c : Cache} (h : cacheOK cfg c)
    (bytes : Nat) : cacheOK cfg (c.setMaxSize bytes) := by
  intro b hb
  rw [Cache.setMaxSize] at hb
  by_cases hz : bytes = 0
  · rw [if_pos hz] at hb
    simp at hb
  · rw [if_neg hz] at hb
    have hb2 : b ∈ evictRevStrict bytes c.data.reverse := by simpa using hb
    have hb3 : b ∈ c.data := by
      have := (evictRevStrict_sublist bytes c.data.reverse).subset hb2
      simpa using this
    exact h b hb3

theorem cacheOK_getFrame {cfg : SourceConfig} {c : Cache} (h : cacheOK cfg c)
    (n : Nat) : cacheOK cfg ((c.getFrame n).2) := by
  intro b hb
  exact h b ((cache_getFrame_perm c n).subset hb)

theorem cacheOK_foldRange (cfg : SourceConfig) :
    ∀ (len p : Nat) (c : Cache),
      (∀ i ∈ List.range' p len, i < numFrames cfg) → cacheOK cfg c →
      cacheOK cfg ((List.range' p len).foldl
        (fun c i => c.cacheFrame i (frameContent cfg i)) c) := by
  intro len
  induction len with
  | zero => intro p c _ h; exact h
  | succ len ih =>
    intro p c hmem h
    rw [List.range'_succ, List.foldl_cons]
    apply ih (p + 1)
    · intro i hi
      exact hmem i (by rw [List.range'_succ]; exact List.mem_cons_of_mem _ hi)
    · exact cacheOK_cacheFrame h (hmem p (by rw [List.range'_succ]; simp)) rfl

theorem cacheOK_cacheRange {cfg : SourceConfig} {c : Cache} (p n : Nat)
    (hn : n < numFrames cfg) (h : cacheOK cfg c) :
    cacheOK cfg (cacheRange cfg c p n) := by
  apply cacheOK_foldRange
  · intro i hi
    have := List.mem_range'_1.mp hi
    omega
  · exact h

/-! ### Linear retrieval lemmas -/

theorem getFrameLinearM_content (cfg : SourceConfig) (ms : MutState) (n : Nat) :
    (getFrameLinearM cfg ms n).1 = frameContent cfg n := by
  unfold getFrameLinearM
  split <;> rfl

theorem getFrameLinearM_flags (cfg : SourceConfig) (ms : MutState) (n : Nat) :
    (getFrameLinearM cfg ms n).2.linearMode = ms.linearMode ∧
    (getFrameLinearM cfg ms n).2.badSeek = ms.badSeek ∧
    (getFrameLinearM cfg ms n).2.seeks = ms.seeks ∧
    (getFrameLinearM cfg ms n).2.preRoll = ms.preRoll := by
  unfold getFrameLinearM
  split <;> simp

theorem getFrameLinearM_cacheOK (cfg : SourceConfig) (ms : MutState) (n : Nat)
    (h : cacheOK cfg ms.cache) (hn : n < numFrames cfg) :
    cacheOK cfg (getFrameLinearM cfg ms n).2.cache := by
  unfold getFrameLinearM
  split
  · exact cacheOK_cacheRange _ n hn h
  · exact cacheOK_cacheRange _ n hn h

/-! ### Seek/retry loop lemmas -/

theorem retrySeek_content_cacheOK (cfg : SourceConfig) (n : Nat) :
    ∀ (b : Nat) (ms : MutState), cacheOK cfg ms.cache → n < numFrames cfg →
      (retrySeek cfg n b ms).content = frameContent cfg n ∧
      cacheOK cfg (retrySeek cfg n b ms).state.cache := by
  intro b
  induction b with
  | zero =>
    intro ms h hn
    constructor
    · simp [retrySeek, getFrameLinearM_content]
    · show cacheOK cfg (getFrameLinearM cfg {ms with linearMode := true, decoders := []} n).2.cache
      exact getFrameLinearM_cacheOK _ _ _ h hn
  | succ b ih =>
    intro ms h hn
    rw [retrySeek]
    split
    · exact ⟨getFrameLinearM_content _ _ _, getFrameLinearM_cacheOK _ _ _ h hn⟩
    · split
      · split
        · exact ⟨rfl, cacheOK_cacheRange _ n hn h⟩
        · exact ih _ h hn
      · exact ih _ h hn

theorem retrySeek_flags (cfg : SourceConfig) (n : Nat) :
    ∀ (b : Nat) (ms : MutState), ms.linearMode = false →
      (((retrySeek cfg n b ms).exhausted = true) ↔
        ((retrySeek cfg n b ms).state.linearMode = true)) ∧
      ((retrySeek cfg n b ms).exhausted = true →
        (retrySeek cfg n b ms).state.seeks = ms.seeks + b) := by
  intro b
  induction b with
  | zero =>
    intro ms hlin
    have h1 := (getFrameLinearM_flags cfg {ms with linearMode := true, decoders := []} n).1
    have h3 := (getFrameLinearM_flags cfg {ms with linearMode := true, decoders := []} n).2.2.1
    constructor
    · show (true = true) ↔
        ((getFrameLinearM cfg {ms with linearMode := true, decoders := []} n).2.linearMode = true)
      simp [h1]
    · intro _
      show (getFrameLinearM cfg {ms with linearMode := true, decoders := []} n).2.seeks =
        ms.seeks + 0
      rw [h3]
      simp
  | succ b ih =>
    intro ms hlin
    rw [retrySeek]
    split
    · have h1 := (getFrameLinearM_flags cfg ms n).1
      constructor
      · show (false = true) ↔ ((getFrameLinearM cfg ms n).2.linearMode = true)
        simp [h1, hlin]
      · intro hctr
        exact absurd hctr (by simp)
    · next sf hsf =>
      split
      · next p hp =>
        split
        · constructor
          · simp [hlin]
          · intro hctr
            exact absurd hctr (by simp)
        · have hrec := ih {ms with seeks := ms.seeks + 1, badSeek := sf :: ms.badSeek}
            (by simp [hlin])
          refine ⟨hrec.1, fun hx => ?_⟩
          have h2 := hrec.2 hx
          simp only [h2]
          omega
      · have hrec := ih {ms with seeks := ms.seeks + 1, badSeek := sf :: ms.badSeek}
          (by simp [hlin])
        refine ⟨hrec.1, fun hx => ?_⟩
        have h2 := hrec.2 hx
        simp only [h2]
        omega

/-! ### Random-mode lemmas -/

theorem cache_getFrame_hit {cfg : SourceConfig} {c : Cache} {n : Nat} {ct : Content}
    {c1 : Cache} (h : cacheOK cfg c) (heq : c.getFrame n = (some ct, c1)) :
    ct = frameContent cfg n ∧ n < numFrames cfg ∧ cacheOK cfg c1 := by
  rw [Cache.getFrame] at heq
  cases hf : c.data.find? (fun b => b.frameNumber == n) with
  | none => rw [hf] at heq; simp at heq
  | some b =>
    rw [hf] at heq
    have hmem : b ∈ c.data := List.mem_of_find?_eq_some hf
    have hpred : b.frameNumber = n := by
      have := List.find?_some hf
      simpa using this
    have hprops := h b hmem
    have h1 : b.frame = ct ∧ (⟨c.maxSize, b :: c.data.erase b⟩ : Cache) = c1 := by
      have := heq
      simp only [Prod.mk.injEq, Option.some.injEq] at this
      exact this
    obtain ⟨hfr, hc1⟩ := h1
    refine ⟨?_, ?_, ?_⟩
    · rw [← hfr, hprops.2, hpred]
    · rw [← hpred]; exact hprops.1
    · rw [← hc1]
      intro x hx
      have hx2 : x = b ∨ x ∈ c.data.erase b := by simpa using hx
      rcases hx2 with rfl | hx2
      · exact hprops
      · exact h x (List.mem_of_mem_erase hx2)

theorem cache_getFrame_miss {c : Cache} {n : Nat} {c1 : Cache}
    (heq : c.getFrame n = (none, c1)) : c1 = c := by
  rw [Cache.getFrame] at heq
  cases hf : c.data.find? (fun b => b.frameNumber == n) with
  | none => rw [hf] at heq; simpa using heq.symm
  | some b => rw [hf] at heq; simp at heq

theorem getFrameRandomM_content_cacheOK (cfg : SourceConfig) (ms : MutState) (n : Nat)
    (h : cacheOK cfg ms.cache) (hn : n < numFrames cfg) :
    (getFrameRandomM cfg ms n).content = frameContent cfg n ∧
    cacheOK cfg (getFrameRandomM cfg ms n).state.cache := by
  rw [getFrameRandomM]
  split
  · next ct cache1 heq =>
    have hh := cache_getFrame_hit h heq
    exact ⟨hh.1, hh.2.2⟩
  · next cache1 heq =>
    have hc1 : cache1 = ms.cache := cache_getFrame_miss heq
    split
    · split
      · exact ⟨rfl, by rw [hc1]; exact cacheOK_cacheRange _ n hn h⟩
      · exact retrySeek_content_cacheOK cfg n RetrySeekAttempts _ (by rw [hc1]; exact h) hn
    · exact retrySeek_content_cacheOK cfg n RetrySeekAttempts _ (by rw [hc1]; exact h) hn

theorem getFrameRandomM_flags (cfg : SourceConfig) (ms : MutState) (n : Nat)
    (hlin : ms.linearMode = false) :
    (((getFrameRandomM cfg ms n).exhausted = true) ↔
      ((getFrameRandomM cfg ms n).state.linearMode = true)) ∧
    ((getFrameRandomM cfg ms n).exhausted = true →
      (getFrameRandomM cfg ms n).state.seeks = ms.seeks + RetrySeekAttempts) := by
  rw [getFrameRandomM]
  split
  · exact ⟨by simp [hlin], fun hctr => absurd hctr (by simp)⟩
  · split
    · split
      · exact ⟨by simp [hlin], fun hctr => absurd hctr (by simp)⟩
      · exact retrySeek_flags cfg n RetrySeekAttempts _ (by simp [hlin])
    · exact retrySeek_flags cfg n RetrySeekAttempts _ (by simp [hlin])

/-! ### `GetFrame` lemmas -/

theorem GetFrameEx_out_of_range (cfg : SourceConfig) (ms : MutState) (N : Int)
    (linear : Bool) (ho : N < 0 ∨ (numFrames cfg : Int) ≤ N) :
    GetFrameEx cfg ms N linear = (.error .RangeError, ms, false) := by
  rw [GetFrameEx, if_pos ho]

theorem GetFrameEx_in_range (cfg : SourceConfig) (ms : MutState) (N : Int)
    (linear : Bool) (h : cacheOK cfg ms.cache) (h0 : 0 ≤ N)
    (hN : N < (numFrames cfg : Int)) :
    (GetFrameEx cfg ms N linear).1 = Except.ok (frameContent cfg N.toNat) ∧
    cacheOK cfg (GetFrameEx cfg ms N linear).2.1.cache := by
  rw [GetFrameEx, if_neg (by omega)]
  have hn : N.toNat < numFrames cfg := by omega
  by_cases hms : (ms.linearMode || linear) = true
  · rw [if_pos hms]
    exact ⟨by rw [getFrameLinearM_content], getFrameLinearM_cacheOK cfg ms N.toNat h hn⟩
  · rw [if_neg hms]
    have := getFrameRandomM_content_cacheOK cfg ms N.toNat h hn
    exact ⟨by rw [this.1], this.2⟩

theorem GetFrameEx_cacheOK (cfg : SourceConfig) (ms : MutState) (N : Int)
    (linear : Bool) (h : cacheOK cfg ms.cache) :
    cacheOK cfg (GetFrameEx cfg ms N linear).2.1.cache := by
  by_cases ho : N < 0 ∨ (numFrames cfg : Int) ≤ N
  · rw [GetFrameEx_out_of_range cfg ms N linear ho]
    exact h
  · push_neg at ho
    exact (GetFrameEx_in_range cfg ms N linear h ho.1 ho.2).2

theorem GetFrameEx_linear_preserve (cfg : SourceConfig) (ms : MutState) (N : Int)
    (linear : Bool) (h : ms.linearMode = true) :
    (GetFrameEx cfg ms N linear).2.1.linearMode = true ∧
    (GetFrameEx cfg ms N linear).2.1.badSeek = ms.badSeek ∧
    (GetFrameEx cfg ms N linear).2.1.seeks = ms.seeks := by
  by_cases ho : N < 0 ∨ (numFrames cfg : Int) ≤ N
  · rw [GetFrameEx_out_of_range cfg ms N linear ho]
    exact ⟨h, rfl, rfl⟩
  · rw [GetFrameEx, if_neg ho, if_pos (by simp [h])]
    have hf := getFrameLinearM_flags cfg ms N.toNat
    exact ⟨by rw [hf.1, h], hf.2.1, hf.2.2.1⟩

theorem GetFrameEx_entry_flags (cfg : SourceConfig) (ms : MutState) (N : Int)
    (linear : Bool) (h : ms.linearMode = false) :
    (((GetFrameEx cfg ms N linear).2.2 = true) ↔
      ((GetFrameEx cfg ms N linear).2.1.linearMode = true)) ∧
    ((GetFrameEx cfg ms N linear).2.2 = true →
      (GetFrameEx cfg ms N linear).2.1.seeks = ms.seeks + RetrySeekAttempts) := by
  by_cases ho : N < 0 ∨ (numFrames cfg : Int) ≤ N
  · rw [GetFrameEx_out_of_range cfg ms N linear ho]
    exact ⟨by simp [h], fun hctr => absurd hctr (by simp)⟩
  · rw [GetFrameEx, if_neg ho]
    by_cases hms : (ms.linearMode || linear) = true
    · rw [if_pos hms]
      have hf := (getFrameLinearM_flags cfg ms N.toNat).1
      exact ⟨by simp [hf, h], fun hctr => absurd hctr (by simp)⟩
    · rw [if_neg hms]
      exact getFrameRandomM_flags cfg ms N.toNat h

/-! ### Preservation over public operation sequences -/

theorem stepOp_cacheOK (cfg : SourceConfig) (op : SrcOp) (ms : MutState)
    (h : cacheOK cfg ms.cache) : cacheOK cfg (stepOp cfg op ms).cache := by
  cases op with
  | getFrame N lin => exact GetFrameEx_cacheOK cfg ms N lin h
  | setMaxCacheSize b => exact cacheOK_setMaxSize h b
  | setSeekPreRoll f => exact h

theorem runOps_cacheOK (cfg : SourceConfig) (ops : List SrcOp) (ms : MutState)
    (h : cacheOK cfg ms.cache) : cacheOK cfg (runOps cfg ops ms).cache := by
  induction ops generalizing ms with
  | nil => exact h
  | cons op rest ih => exact ih _ (stepOp_cacheOK cfg op ms h)

theorem stepOp_linear (cfg : SourceConfig) (op : SrcOp) (ms : MutState)
    (h : ms.linearMode = true) :
    (stepOp cfg op ms).linearMode = true ∧ (stepOp cfg op ms).badSeek = ms.badSeek ∧
    (stepOp cfg op ms).seeks = ms.seeks := by
  cases op with
  | getFrame N lin => exact GetFrameEx_linear_preserve cfg ms N lin h
  | setMaxCacheSize b => exact ⟨h, rfl, rfl⟩
  | setSeekPreRoll f => exact ⟨h, rfl, rfl⟩

theorem runOps_linear (cfg : SourceConfig) (ops : List SrcOp) (ms : MutState)
    (h : ms.linearMode = true) :
    (runOps cfg ops ms).linearMode = true ∧ (runOps cfg ops ms).badSeek = ms.badSeek ∧
    (runOps cfg ops ms).seeks = ms.seeks := by
  induction ops generalizing ms with
  | nil => exact ⟨h, rfl, rfl⟩
  | cons op rest ih =>
    have h1 := stepOp_linear cfg op ms h
    have h2 := ih (stepOp cfg op ms) h1.1
    exact ⟨h2.1, h2.2.1.trans h1.2.1, h2.2.2.trans h1.2.2⟩

/-! ### Index hashes -/

/-- Modelled from the spec: §4.2 — the video indexer records PTS,
`repeat_pict`, key-frame flag, TFF and the content hash for each decoded
frame; `pts`, `rp`, `kf`, `tff` are the per-frame container metadata. -/
def indexVideoAux (pts rpv : Nat → Int) (kf tff : Nat → Bool) :
    Nat → List Content → List VideoFrameInfo
  | _, [] => []
  | i, ct :: rest =>
    ⟨pts i, rpv i, kf i, tff i, contentHash ct⟩ ::
      indexVideoAux pts rpv kf tff (i + 1) rest

def mkVideoIndex (pts rpv : Nat → Int) (kf tff : Nat → Bool) (lfd : Int)
    (stream : List Content) : VideoTrackIndex :=
  ⟨lfd, indexVideoAux pts rpv kf tff 0 stream⟩

theorem indexAudioAux_getD_hash (B : Nat) (pts : Nat → Int) :
    ∀ (l : List Content) (i : Nat) (pos : Int) (n : Nat), n < l.length →
      ((indexAudioAux B pts i pos l).getD n ⟨0, 0, 0, []⟩).Hash =
        contentHash (l.getD n []) := by
  intro l
  induction l with
  | nil => intro i pos n h; simp at h
  | cons ct rest ih =>
    intro i pos n h
    cases n with
    | zero => rfl
    | succ n => exact ih (i + 1) _ n (by simpa using h)

theorem indexVideoAux_getD_hash (pts rpv : Nat → Int) (kf tff : Nat → Bool) :
    ∀ (l : List Content) (i : Nat) (n : Nat), n < l.length →
      ((indexVideoAux pts rpv kf tff i l).getD n ⟨0, 0, false, false, []⟩).Hash =
        contentHash (l.getD n []) := by
  intro l
  induction l with
  | nil => intro i n h; simp at h
  | cons ct rest ih =>
    intro i n h
    cases n with
    | zero => rfl
    | succ n => exact ih (i + 1) n (by simpa using h)

/-- C1. For every `N` in `[0, NumFrames)`, `GetFrame(N)` on an indexed
source returns the decoded frame `N`, whose 128-bit content hash equals
`TrackIndex.Frames[N].Hash`; for `N` outside the range it fails with
`RangeError` instead of returning a frame and leaves the source state
unchanged (hence consistent and usable).  Holds for both
`BestAudioSource::GetFrame` and `BestVideoSource::GetFrame`. -/
theorem getFrame_contract (cfg : SourceConfig) (ms : MutState) (N : Int)
    (linear : Bool) (B : Nat) (pts ptsv rpv : Nat → Int) (kfv tffv : Nat → Bool)
    (lfd : Int) (h : cacheOK cfg ms.cache) :
    (0 ≤ N → N < (numFrames cfg : Int) →
      (BestAudioSource.GetFrame cfg ms N linear).1 =
        Except.ok (frameContent cfg N.toNat) ∧
      (BestVideoSource.GetFrame cfg ms N linear).1 =
        Except.ok (frameContent cfg N.toNat) ∧
      ((mkAudioIndex B pts cfg.stream).Frames.getD N.toNat ⟨0, 0, 0, []⟩).Hash =
        contentHash (frameContent cfg N.toNat) ∧
      ((mkVideoIndex ptsv rpv kfv tffv lfd cfg.stream).Frames.getD N.toNat
        ⟨0, 0, false, false, []⟩).Hash = contentHash (frameContent cfg N.toNat) ∧
      cacheOK cfg (BestAudioSource.GetFrame cfg ms N linear).2.cache) ∧
    ((N < 0 ∨ (numFrames cfg : Int) ≤ N) →
      BestAudioSource.GetFrame cfg ms N linear =
        (Except.error BSError.RangeError, ms) ∧
      BestVideoSource.GetFrame cfg ms N linear =
        (Except.error BSError.RangeError, ms)) := by
  constructor
  · intro h0 hN
    have hn : N.toNat < cfg.stream.length := by
      have : N.toNat < numFrames cfg := by omega
      simpa [numFrames] using this
    have hin := GetFrameEx_in_range cfg ms N linear h h0 hN
    have hcontent : frameContent cfg N.toNat = cfg.stream.getD N.toNat [] := rfl
    refine ⟨hin.1, hin.1, ?_, ?_, hin.2⟩
    · rw [hcontent]
      exact indexAudioAux_getD_hash B pts cfg.stream 0 0 N.toNat hn
    · rw [hcontent]
      exact indexVideoAux_getD_hash ptsv rpv kfv tffv cfg.stream 0 N.toNat hn
  · intro ho
    have := GetFrameEx_out_of_range cfg ms N linear ho
    constructor
    · show ((GetFrameEx cfg ms N linear).1, (GetFrameEx cfg ms N linear).2.1) =
        (Except.error BSError.RangeError, ms)
      rw [this]
    · show ((GetFrameEx cfg ms N linear).1, (GetFrameEx cfg ms N linear).2.1) =
        (Except.error BSError.RangeError, ms)
      rw [this]

/-- A correct, broken-seek-free concrete three-frame source. -/
def cfgGood : SourceConfig :=
  ⟨[[1], [2], [3]], fun _ => true, fun k => some k, 1000⟩

/-- A source whose every seek fails to resync (spec §4.5.5 failure). -/
def cfgBad : SourceConfig :=
  ⟨List.replicate 16 [], fun _ => true, fun _ => none, 0⟩

/-- A state already in linear mode. -/
def msLinear : MutState := ⟨[], Cache.init, [], true, 40, 0, 0⟩

/-- A fresh state with zero pre-roll (as after `SetSeekPreRoll 0`). -/
def msZeroPreRoll : MutState := ⟨[], Cache.init, [], false, 0, 0, 0⟩

/-- Witness for C1 at the concrete source: frame 1 in range, frame 5 out of
range. -/
theorem getFrame_contract_witness :
    ((BestAudioSource.GetFrame cfgGood BestAudioSource.initState 1 false).1 =
      Except.ok (frameContent cfgGood (1 : Int).toNat) ∧
     (BestVideoSource.GetFrame cfgGood BestAudioSource.initState 1 false).1 =
      Except.ok (frameContent cfgGood (1 : Int).toNat) ∧
     ((mkAudioIndex 1 (fun _ => 0) cfgGood.stream).Frames.getD (1 : Int).toNat
        ⟨0, 0, 0, []⟩).Hash = contentHash (frameContent cfgGood (1 : Int).toNat) ∧
     ((mkVideoIndex (fun _ => 0) (fun _ => 0) (fun _ => true) (fun _ => false) 1
        cfgGood.stream).Frames.getD (1 : Int).toNat ⟨0, 0, false, false, []⟩).Hash =
      contentHash (frameContent cfgGood (1 : Int).toNat) ∧
     cacheOK cfgGood (BestAudioSource.GetFrame cfgGood BestAudioSource.initState 1 false).2.cache) ∧
    (BestAudioSource.GetFrame cfgGood BestAudioSource.initState 5 false =
      (Except.error BSError.RangeError, BestAudioSource.initState) ∧
     BestVideoSource.GetFrame cfgGood BestAudioSource.initState 5 false =
      (Except.error BSError.RangeError, BestAudioSource.initState)) :=
  ⟨(getFrame_contract cfgGood BestAudioSource.initState 1 false 1 (fun _ => 0)
      (fun _ => 0) (fun _ => 0) (fun _ => true) (fun _ => false) 1
      (by intro b hb; simp [BestAudioSource.initState, Cache.init] at hb)).1
      (by decide) (by decide),
   (getFrame_contract cfgGood BestAudioSource.initState 5 false 1 (fun _ => 0)
      (fun _ => 0) (fun _ => 0) (fun _ => true) (fun _ => false) 1
      (by intro b hb; simp [BestAudioSource.initState, Cache.init] at hb)).2
      (by decide)⟩

/-- C2. For every valid frame index `N`, `GetFrame(N)` returns the same
(correct) content in forced-linear and random mode, and repeated calls with
arbitrary modelled public operations interleaved all return identical
content. -/
theorem getFrame_deterministic (cfg : SourceConfig) (ms : MutState) (N : Int)
    (h : cacheOK cfg ms.cache) (h0 : 0 ≤ N) (hN : N < (numFrames cfg : Int)) :
    ∀ (ops1 ops2 : List SrcOp) (l1 l2 : Bool),
      (GetFrame cfg (runOps cfg ops1 ms) N l1).1 =
        Except.ok (frameContent cfg N.toNat) ∧
      (GetFrame cfg (runOps cfg ops1 ms) N l1).1 =
        (GetFrame cfg (runOps cfg ops2 ms) N l2).1 := by
  intro ops1 ops2 l1 l2
  have c1 := (GetFrameEx_in_range cfg (runOps cfg ops1 ms) N l1
    (runOps_cacheOK cfg ops1 ms h) h0 hN).1
  have c2 := (GetFrameEx_in_range cfg (runOps cfg ops2 ms) N l2
    (runOps_cacheOK cfg ops2 ms h) h0 hN).1
  exact ⟨c1, c1.trans c2.symm⟩

/-- Witness for C2: random access after an interleaved request equals a
forced-linear access on the fresh source. -/
theorem getFrame_deterministic_witness :
    (GetFrame cfgGood (runOps cfgGood [SrcOp.getFrame 2 false] BestAudioSource.initState)
        1 true).1 = Except.ok (frameContent cfgGood (1 : Int).toNat) ∧
    (GetFrame cfgGood (runOps cfgGood [SrcOp.getFrame 2 false] BestAudioSource.initState)
        1 true).1 = (GetFrame cfgGood (runOps cfgGood [] BestAudioSource.initState) 1 false).1 :=
  getFrame_deterministic cfgGood BestAudioSource.initState 1
    (by intro b hb; simp [BestAudioSource.initState, Cache.init] at hb)
    (by decide) (by decide) [SrcOp.getFrame 2 false] [] true false

/-- C5. Linear mode is absorbing: `RetrySeekAttempts = 10`; once the flag
is set it survives every sequence of modelled public operations, during
which no decoder `Seek` is issued and `BadSeekLocations` is never modified;
and starting from random mode, a `GetFrame` call sets the flag exactly when
the retry budget is exhausted, which consumes exactly `RetrySeekAttempts`
failed seek attempts. -/
theorem linear_mode_absorbing (cfg : SourceConfig) :
    (RetrySeekAttempts = 10) ∧
    (∀ (ops : List SrcOp) (ms : MutState), ms.linearMode = true →
      (runOps cfg ops ms).linearMode = true ∧
      (runOps cfg ops ms).badSeek = ms.badSeek ∧
      (runOps cfg ops ms).seeks = ms.seeks) ∧
    (∀ (ms : MutState) (N : Int) (lin : Bool), ms.linearMode = false →
      (((GetFrameEx cfg ms N lin).2.2 = true) ↔
        ((GetFrameEx cfg ms N lin).2.1.linearMode = true)) ∧
      ((GetFrameEx cfg ms N lin).2.2 = true →
        (GetFrameEx cfg ms N lin).2.1.seeks = ms.seeks + RetrySeekAttempts)) :=
  ⟨rfl, fun ops ms h => runOps_linear cfg ops ms h,
   fun ms N lin h => GetFrameEx_entry_flags cfg ms N lin h⟩

/-- Witness for C5: on the all-bad-seeks source a request exhausts the
budget and flips into linear mode after exactly 10 seeks; a source already
linear stays linear with untouched bad-seek set and seek count. -/
theorem linear_mode_absorbing_witness :
    ((((GetFrameEx cfgBad msZeroPreRoll 15 false).2.2 = true) ↔
       ((GetFrameEx cfgBad msZeroPreRoll 15 false).2.1.linearMode = true)) ∧
     ((GetFrameEx cfgBad msZeroPreRoll 15 false).2.2 = true →
       (GetFrameEx cfgBad msZeroPreRoll 15 false).2.1.seeks =
         msZeroPreRoll.seeks + RetrySeekAttempts)) ∧
    ((runOps cfgGood [SrcOp.getFrame 1 false] msLinear).linearMode = true ∧
     (runOps cfgGood [SrcOp.getFrame 1 false] msLinear).badSeek = msLinear.badSeek ∧
     (runOps cfgGood [SrcOp.getFrame 1 false] msLinear).seeks = msLinear.seeks) :=
  ⟨(linear_mode_absorbing cfgBad).2.2 msZeroPreRoll 15 false rfl,
   (linear_mode_absorbing cfgGood).2.1 [SrcOp.getFrame 1 false] msLinear rfl⟩

/-! ## Audio sample assembler (C6 in the spec)

Modelled from the spec: §4.6 — `GetPackedAudio` / `GetPlanarAudio` and the
`ZeroFill*`/`FillInFrame*` helpers (`audiosource.h` lines 171-176 and
192-193; implementations absent).  `B` is the byte size of one all-channel
sample (`channels * bytes_per_sample`); `bps` is `bytes_per_sample`. -/

/-- Well-formed packed audio: positive sample size, every decoded frame a
whole positive number of samples. -/
def audioWF (B : Nat) (stream : List Content) : Prop :=
  0 < B ∧ ∀ ct ∈ stream, B ∣ ct.length ∧ ct.length ≠ 0

/-- Total sample count of the stream. -/
def sampleCount (B : Nat) (stream : List Content) : Nat :=
  (stream.map (fun ct => ct.length / B)).sum

/-- First sample position of frame `i` (cumulative lengths). -/
def frameStartSample (B : Nat) (stream : List Content) (i : Nat) : Nat :=
  ((stream.take i).map (fun ct => ct.length / B)).sum

/-- Sample length of frame `i`. -/
def frameLen (B : Nat) (stream : List Content) (i : Nat) : Nat :=
  (stream.getD i []).length / B

/-- The bytes of samples `[s, s+c)` of a concatenated stream whose samples
are `outB` bytes wide. -/
def sampleBytes (outB : Nat) (l : List Content) (s c : Nat) : List Nat :=
  (l.flatten.drop (s * outB)).take (c * outB)

/-- A run of `k` samples of zero bytes, `outB` bytes per sample. -/
def zeroSamples (outB k : Nat) : List Nat := List.replicate (k * outB) 0

/-- Locate the frame containing absolute sample `s`: returns the frame
index and its first sample position (spec §4.6 binary search, modelled
structurally). -/
def frameFor (B : Nat) : List Content → Nat → Nat × Nat
  | [], _ => (0, 0)
  | ct :: rest, s =>
    if s < ct.length / B then (0, 0)
    else
      ((frameFor B rest (s - ct.length / B)).1 + 1,
       (frameFor B rest (s - ct.length / B)).2 + ct.length / B)

/-- The bytes of channel `ch` extracted from an interleaved frame. -/
def extractChannel (bps B ch : Nat) (ct : Content) : Content :=
  (List.range (ct.length / B)).flatMap (fun j => (ct.drop (j * B + ch * bps)).take bps)

/-- Modelled from the spec: §4.6 step 3 / `FillInFramePacked` and
`FillInFramePlanar` — walk the frames of the in-range portion, requesting
each through the seek engine and copying the needed sub-range (through the
view `v`, which is the identity for packed output and channel extraction
for planar output; `outB` bytes per sample are emitted). -/
def fillLoopV (cfg : SourceConfig) (B outB : Nat) (v : Content → Content) :
    Nat → MutState → Nat → Nat → Nat → Nat → List Nat × MutState
  | 0, ms, _, _, _, _ => ([], ms)
  | fuel + 1, ms, i, fs, s, c =>
    if c = 0 then ([], ms)
    else
      match GetFrame cfg ms (i : Int) false with
      | (Except.ok ct, ms1) =>
        ((((v ct).drop ((s - fs) * outB)).take (min c (ct.length / B - (s - fs)) * outB)) ++
           (fillLoopV cfg B outB v fuel ms1 (i + 1) (fs + ct.length / B)
             (s + min c (ct.length / B - (s - fs)))
             (c - min c (ct.length / B - (s - fs)))).1,
         (fillLoopV cfg B outB v fuel ms1 (i + 1) (fs + ct.length / B)
             (s + min c (ct.length / B - (s - fs)))
             (c - min c (ct.length / B - (s - fs)))).2)
      | (Except.error _, ms1) => ([], ms1)

/-- Modelled from the spec: §4.6 step 1 / `ZeroFillStartPacked` — the
number of requested samples lying before sample 0. -/
def packLead (start count : Int) : Nat := (max 0 (min (-start) count)).toNat

def packStart1 (start count : Int) : Int := start + packLead start count

def packCount1 (start count : Int) : Int := count - packLead start count

/-- The number of requested samples inside `[0, num_samples)`. -/
def packMid (ns start count : Int) : Nat :=
  (max 0 (min (ns - packStart1 start count) (packCount1 start count))).toNat

/-- Modelled from the spec: §4.6 step 1 / `ZeroFillEndPacked` — the number
of requested samples at or past `num_samples`. -/
def packTail (ns start count : Int) : Nat :=
  (packCount1 start count - packMid ns start count).toNat

/-- Modelled from the spec: §4.6 — `GetPackedAudio(Data, Start, Count)`. -/
def GetPackedAudio (cfg : SourceConfig) (B : Nat) (ms : MutState)
    (start count : Int) : List Nat × MutState :=
  if count ≤ 0 then ([], ms)
  else
    (zeroSamples B (packLead start count) ++
      (fillLoopV cfg B B id (packMid (audioNumSamples B cfg.stream) start count) ms
        (frameFor B cfg.stream (packStart1 start count).toNat).1
        (frameFor B cfg.stream (packStart1 start count).toNat).2
        (packStart1 start count).toNat
        (packMid (audioNumSamples B cfg.stream) start count)).1 ++
      zeroSamples B (packTail (audioNumSamples B cfg.stream) start count),
     (fillLoopV cfg B B id (packMid (audioNumSamples B cfg.stream) start count) ms
        (frameFor B cfg.stream (packStart1 start count).toNat).1
        (frameFor B cfg.stream (packStart1 start count).toNat).2
        (packStart1 start count).toNat
        (packMid (audioNumSamples B cfg.stream) start count)).2)

/-- Modelled from the spec: §4.6 — `GetPlanarAudio(Data[], Start, Count)`:
one buffer per channel (`B / bps` channels, `bps` bytes per sample each);
the frames of the in-range portion are decoded once and each plane receives
its channel's bytes. -/
def GetPlanarAudio (cfg : SourceConfig) (B bps : Nat) (ms : MutState)
    (start count : Int) : List (List Nat) × MutState :=
  if count ≤ 0 then (List.replicate (B / bps) [], ms)
  else
    ((List.range (B / bps)).map (fun ch =>
      zeroSamples bps (packLead start count) ++
        (fillLoopV cfg B bps (extractChannel bps B ch)
          (packMid (audioNumSamples B cfg.stream) start count) ms
          (frameFor B cfg.stream (packStart1 start count).toNat).1
          (frameFor B cfg.stream (packStart1 start count).toNat).2
          (packStart1 start count).toNat
          (packMid (audioNumSamples B cfg.stream) start count)).1 ++
        zeroSamples bps (packTail (audioNumSamples B cfg.stream) start count)),
     (fillLoopV cfg B B id (packMid (audioNumSamples B cfg.stream) start count) ms
        (frameFor B cfg.stream (packStart1 start count).toNat).1
        (frameFor B cfg.stream (packStart1 start count).toNat).2
        (packStart1 start count).toNat
        (packMid (audioNumSamples B cfg.stream) start count)).2)

/-! ### Assembler lemmas -/

theorem audioTotalSamplesAux_eq (B : Nat) :
    ∀ (l : List Content) (pos : Int),
      audioTotalSamplesAux B pos l = pos + (sampleCount B l : Int) := by
  intro l
  induction l with
  | nil => intro pos; simp [audioTotalSamplesAux, sampleCount]
  | cons ct rest ih =>
    intro pos
    rw [audioTotalSamplesAux, ih]
    simp [sampleCount]
    ring

theorem audioNumSamples_eq (B : Nat) (stream : List Content) :
    audioNumSamples B stream = (sampleCount B stream : Int) := by
  rw [audioNumSamples, audioTotalSamplesAux_eq]
  simp

theorem frameStartSample_succ (B : Nat) :
    ∀ (stream : List Content) (i : Nat),
      frameStartSample B stream (i + 1) =
        frameStartSample B stream i + frameLen B stream i := by
  intro stream
  induction stream with
  | nil => intro i; simp [frameStartSample, frameLen]
  | cons ct rest ih =>
    intro i
    cases i with
    | zero => simp [frameStartSample, frameLen]
    | succ i =>
      have := ih i
      simp only [frameStartSample, frameLen, List.take_succ_cons, List.map_cons,
        List.sum_cons, List.getD_cons_succ] at *
      omega

theorem frameStartSample_of_le (B : Nat) (stream : List Content) (i : Nat)
    (h : stream.length ≤ i) : frameStartSample B stream i = sampleCount B stream := by
  rw [frameStartSample, List.take_of_length_le h, sampleCount]

theorem lt_of_frameStartSample_lt (B : Nat) (stream : List Content) (j : Nat)
    (h : frameStartSample B stream j < sampleCount B stream) : j < stream.length := by
  by_contra h2
  rw [frameStartSample_of_le B stream j (by omega)] at h
  omega

theorem frameLen_pos (B : Nat) (stream : List Content) (i : Nat)
    (hwf : audioWF B stream) (hi : i < stream.length) : 0 < frameLen B stream i := by
  have hmem : stream.getD i [] ∈ stream := by
    rw [List.getD_eq_getElem stream [] hi]
    exact List.getElem_mem hi
  have := hwf.2 _ hmem
  rw [frameLen]
  have hge : B ≤ (stream.getD i []).length := Nat.le_of_dvd (by omega) this.1
  exact Nat.div_pos hge hwf.1

theorem frameFor_spec (B : Nat) :
    ∀ (stream : List Content) (s : Nat), s < sampleCount B stream →
      (frameFor B stream s).2 = frameStartSample B stream (frameFor B stream s).1 ∧
      (frameFor B stream s).2 ≤ s ∧
      s < (frameFor B stream s).2 + frameLen B stream (frameFor B stream s).1 := by
  intro stream
  induction stream with
  | nil => intro s hs; simp [sampleCount] at hs
  | cons ct rest ih =>
    intro s hs
    rw [frameFor]
    by_cases hlt : s < ct.length / B
    · rw [if_pos hlt]
      exact ⟨rfl, Nat.zero_le s, by simpa [frameLen] using hlt⟩
    · rw [if_neg hlt]
      have hs' : s - ct.length / B < sampleCount B rest := by
        simp only [sampleCount, List.map_cons, List.sum_cons] at hs ⊢
        omega
      obtain ⟨e1, e2, e3⟩ := ih (s - ct.length / B) hs'
      have hcons : frameStartSample B (ct :: rest)
          ((frameFor B rest (s - ct.length / B)).1 + 1) =
          ct.length / B + frameStartSample B rest (frameFor B rest (s - ct.length / B)).1 := by
        simp [frameStartSample, List.take_succ_cons]
      have hlen : frameLen B (ct :: rest) ((frameFor B rest (s - ct.length / B)).1 + 1) =
          frameLen B rest (frameFor B rest (s - ct.length / B)).1 := by
        simp [frameLen]
      refine ⟨?_, by omega, ?_⟩
      · rw [hcons]
        omega
      · rw [hlen]
        omega

theorem flatten_frame_slice :
    ∀ (l : List Content) (i off cnt : Nat), i < l.length →
      off + cnt ≤ (l.getD i []).length →
      ((l.flatten.drop (((l.take i).map List.length).sum + off)).take cnt) =
        (((l.getD i []).drop off).take cnt) := by
  intro l
  induction l with
  | nil => intro i off cnt hi; simp at hi
  | cons ct rest ih =>
    intro i off cnt hi hcnt
    cases i with
    | zero =>
      simp only [List.take_zero, List.map_nil, List.sum_nil, Nat.zero_add,
        List.flatten_cons, List.getD_cons_zero] at *
      rw [List.drop_append_of_le_length (by omega)]
      rw [List.take_append_of_le_length (by simp; omega)]
    | succ i =>
      simp only [List.take_succ_cons, List.map_cons, List.sum_cons,
        List.flatten_cons, List.getD_cons_succ, List.length_cons] at *
      rw [Nat.add_assoc, ← List.drop_drop, List.drop_left]
      exact ih i off cnt (by omega) hcnt

theorem getD_map_of_lt (f : Content → Content) (l : List Content) (i : Nat)
    (h : i < l.length) (d1 d2 : Content) :
    (l.map f).getD i d1 = f (l.getD i d2) := by
  rw [List.getD_eq_getElem (l.map f) d1 (by simpa using h),
    List.getD_eq_getElem l d2 h]
  simp

theorem mapped_byteStart (B outB : Nat) (v : Content → Content) :
    ∀ (stream : List Content),
      (∀ ct ∈ stream, (v ct).length = (ct.length / B) * outB) →
      ∀ i, (((stream.map v).take i).map List.length).sum =
        frameStartSample B stream i * outB := by
  intro stream
  induction stream with
  | nil => intro _ i; simp [frameStartSample]
  | cons ct rest ih =>
    intro hv i
    cases i with
    | zero => simp [frameStartSample]
    | succ i =>
      have hv1 := hv ct (by simp)
      have hrest := ih (fun c hc => hv c (by simp [hc])) i
      simp only [List.map_cons, List.take_succ_cons, List.sum_cons,
        frameStartSample, hv1, hrest]
      ring

theorem fillLoopV_correct (cfg : SourceConfig) (B outB : Nat) (v : Content → Content)
    (hwf : audioWF B cfg.stream)
    (hv : ∀ ct ∈ cfg.stream, (v ct).length = (ct.length / B) * outB) :
    ∀ (fuel : Nat) (ms : MutState) (i fs s c : Nat),
      cacheOK cfg ms.cache → c ≤ fuel → s + c ≤ sampleCount B cfg.stream →
      (0 < c → fs = frameStartSample B cfg.stream i ∧ fs ≤ s ∧
        s < fs + frameLen B cfg.stream i) →
      (fillLoopV cfg B outB v fuel ms i fs s c).1 =
        ((cfg.stream.map v).flatten.drop (s * outB)).take (c * outB) ∧
      cacheOK cfg (fillLoopV cfg B outB v fuel ms i fs s c).2.cache := by
  intro fuel
  induction fuel with
  | zero =>
    intro ms i fs s c h hc _ _
    have hc0 : c = 0 := by omega
    subst hc0
    exact ⟨by simp [fillLoopV], by simp [fillLoopV, h]⟩
  | succ fuel ih =>
    intro ms i fs s c h hc htot hinv
    by_cases hc0 : c = 0
    · subst hc0
      exact ⟨by simp [fillLoopV], by simp [fillLoopV, h]⟩
    · obtain ⟨hfs, hfss, hslt⟩ := hinv (by omega)
      have hlenpos : 0 < frameLen B cfg.stream i := by omega
      have hi : i < cfg.stream.length := by
        by_contra hbad
        have hdef : cfg.stream.getD i [] = [] := List.getD_eq_default _ _ (by omega)
        rw [frameLen, hdef] at hlenpos
        simp at hlenpos
      have hiN : (i : Int) < ((numFrames cfg : Nat) : Int) := by exact_mod_cast hi
      have hok := GetFrameEx_in_range cfg ms (i : Int) false h (Int.natCast_nonneg i) hiN
      have hres1 : (GetFrame cfg ms (i : Int) false).1 = Except.ok (frameContent cfg i) := by
        have := hok.1
        simpa [GetFrame] using this
      have hms1OK : cacheOK cfg (GetFrame cfg ms (i : Int) false).2.cache := by
        have := GetFrameEx_cacheOK cfg ms (i : Int) false h
        simpa [GetFrame] using this
      rw [fillLoopV, if_neg hc0]
      split
      · next ct ms1 heq =>
        have h1 : (Except.ok ct : Except BSError Content) =
            Except.ok (frameContent cfg i) := by
          rw [← hres1, heq]
        have hct : ct = frameContent cfg i := by
          simpa using h1
        subst hct
        have hms1 : ms1 = (GetFrame cfg ms (i : Int) false).2 := by
          rw [heq]
        have hlen_eq : (frameContent cfg i).length / B = frameLen B cfg.stream i := rfl
        rw [hlen_eq]
        have hmemi : cfg.stream.getD i [] ∈ cfg.stream := by
          rw [List.getD_eq_getElem cfg.stream [] hi]
          exact List.getElem_mem hi
        have hvlen : (v (frameContent cfg i)).length =
            frameLen B cfg.stream i * outB := hv _ hmemi
        have hrec := ih ms1 (i + 1) (fs + frameLen B cfg.stream i)
          (s + min c (frameLen B cfg.stream i - (s - fs)))
          (c - min c (frameLen B cfg.stream i - (s - fs)))
          (by rw [hms1]; exact hms1OK)
          (by omega)
          (by omega)
          (by
            intro hcpos
            have hnext : frameStartSample B cfg.stream (i + 1) =
                frameStartSample B cfg.stream i + frameLen B cfg.stream i :=
              frameStartSample_succ B cfg.stream i
            have hi1 : i + 1 < cfg.stream.length := by
              apply lt_of_frameStartSample_lt B cfg.stream (i + 1)
              rw [hnext, ← hfs]
              omega
            have hlp := frameLen_pos B cfg.stream (i + 1) hwf hi1
            refine ⟨by rw [hnext, hfs], by omega, by omega⟩)
        have hgd : (cfg.stream.map v).getD i [] = v (cfg.stream.getD i []) :=
          getD_map_of_lt v cfg.stream i hi [] []
        have hchunk :
            ((v (frameContent cfg i)).drop ((s - fs) * outB)).take
              (min c (frameLen B cfg.stream i - (s - fs)) * outB) =
            ((cfg.stream.map v).flatten.drop (s * outB)).take
              (min c (frameLen B cfg.stream i - (s - fs)) * outB) := by
          have hslice := flatten_frame_slice (cfg.stream.map v) i
            ((s - fs) * outB) (min c (frameLen B cfg.stream i - (s - fs)) * outB)
            (by simpa using hi)
            (by
              rw [hgd]
              have : (v (cfg.stream.getD i [])).length =
                  frameLen B cfg.stream i * outB := hv _ hmemi
              rw [this, ← Nat.add_mul]
              exact Nat.mul_le_mul_right outB (by omega))
          rw [mapped_byteStart B outB v cfg.stream hv i, hgd, ← hfs] at hslice
          have harith : fs * outB + (s - fs) * outB = s * outB := by
            rw [← Nat.add_mul]
            congr 1
            omega
          rw [harith] at hslice
          exact hslice.symm
        have hsplitn : c * outB =
            min c (frameLen B cfg.stream i - (s - fs)) * outB +
            (c - min c (frameLen B cfg.stream i - (s - fs))) * outB := by
          rw [← Nat.add_mul]
          congr 1
          omega
        have hdd : (((cfg.stream.map v).flatten.drop (s * outB)).drop
            (min c (frameLen B cfg.stream i - (s - fs)) * outB)) =
            (cfg.stream.map v).flatten.drop
              ((s + min c (frameLen B cfg.stream i - (s - fs))) * outB) := by
          rw [List.drop_drop]
          congr 1
          ring
        constructor
        · rw [hchunk, hrec.1]
          conv_rhs => rw [hsplitn, List.take_add]
          rw [hdd]
        · exact hrec.2
      · next e ms1 heq =>
        exfalso
        have h1 : (Except.error e : Except BSError Content) =
            Except.ok (frameContent cfg i) := by
          rw [← hres1, heq]
        simp at h1

theorem getD_map_range {α : Type} (n ch : Nat) (f : Nat → α) (d : α) (h : ch < n) :
    (((List.range n).map f).getD ch d) = f ch := by
  rw [List.getD_eq_getElem _ d (by simpa using h)]
  simp

theorem getD_replicate_nil (n ch : Nat) :
    ((List.replicate n ([] : List Nat)).getD ch []) = [] := by
  by_cases h : ch < n
  · rw [List.getD_eq_getElem _ [] (by simpa using h)]
    simp
  · rw [List.getD_eq_default _ [] (by simpa using h)]

theorem extractChannel_length (bps B ch : Nat) (ct : Content)
    (hch : (ch + 1) * bps ≤ B) (hdvd : B ∣ ct.length) :
    (extractChannel bps B ch ct).length = (ct.length / B) * bps := by
  rw [extractChannel, List.length_flatMap]
  simp only [Function.comp_def]
  have hpoint : ∀ j ∈ List.range (ct.length / B),
      ((ct.drop (j * B + ch * bps)).take bps).length = bps := by
    intro j hj
    have hj' : j < ct.length / B := List.mem_range.mp hj
    have h3 : (ct.length / B) * B = ct.length := Nat.div_mul_cancel hdvd
    have hle : j * B + ch * bps + bps ≤ ct.length := by
      have e1 : ch * bps + bps = (ch + 1) * bps := (Nat.succ_mul ch bps).symm
      have e2 : j * B + B = (j + 1) * B := (Nat.succ_mul j B).symm
      have h2 : (j + 1) * B ≤ (ct.length / B) * B :=
        Nat.mul_le_mul_right B (by omega)
      omega
    rw [List.length_take, List.length_drop]
    omega
  rw [List.map_congr_left hpoint]
  simp [List.map_const']

/-- C6. `GetPackedAudio` and `GetPlanarAudio` clamp the request to
`[0, NumSamples)`: the output is left zero-padding, then exactly the
underlying in-range sample bytes (per channel for planar), then right
zero-padding; a request entirely outside `[0, NumSamples)` produces all
zero bytes and makes no decoder call (the state, including the seek and
decode counters, is unchanged). -/
theorem audio_zero_fill (cfg : SourceConfig) (B bps : Nat) (ms : MutState)
    (start count : Int) (hwf : audioWF B cfg.stream) (h : cacheOK cfg ms.cache) :
    (0 < count →
      (GetPackedAudio cfg B ms start count).1 =
        zeroSamples B (packLead start count) ++
        sampleBytes B cfg.stream (packStart1 start count).toNat
          (packMid (audioNumSamples B cfg.stream) start count) ++
        zeroSamples B (packTail (audioNumSamples B cfg.stream) start count) ∧
      cacheOK cfg (GetPackedAudio cfg B ms start count).2.cache ∧
      (∀ ch, ch < B / bps →
        (GetPlanarAudio cfg B bps ms start count).1.getD ch [] =
          zeroSamples bps (packLead start count) ++
          sampleBytes bps (cfg.stream.map (extractChannel bps B ch))
            (packStart1 start count).toNat
            (packMid (audioNumSamples B cfg.stream) start count) ++
          zeroSamples bps (packTail (audioNumSamples B cfg.stream) start count))) ∧
    ((start + count ≤ 0 ∨ audioNumSamples B cfg.stream ≤ start) →
      (GetPackedAudio cfg B ms start count).1 =
        List.replicate (count.toNat * B) 0 ∧
      (GetPackedAudio cfg B ms start count).2 = ms ∧
      (∀ ch, ch < B / bps →
        (GetPlanarAudio cfg B bps ms start count).1.getD ch [] =
          List.replicate (count.toNat * bps) 0) ∧
      (GetPlanarAudio cfg B bps ms start count).2 = ms) := by
  have hns : audioNumSamples B cfg.stream = (sampleCount B cfg.stream : Int) :=
    audioNumSamples_eq B cfg.stream
  have hv_id : ∀ ct ∈ cfg.stream, (id ct).length = (ct.length / B) * B := by
    intro ct hct
    simp only [id]
    exact (Nat.div_mul_cancel (hwf.2 ct hct).1).symm
  have hv_ch : ∀ ch, ch < B / bps →
      ∀ ct ∈ cfg.stream, (extractChannel bps B ch ct).length = (ct.length / B) * bps := by
    intro ch hch ct hct
    have hchB : (ch + 1) * bps ≤ B := by
      have h1 : ch + 1 ≤ B / bps := by omega
      have h2 : (ch + 1) * bps ≤ (B / bps) * bps := Nat.mul_le_mul_right bps h1
      have h3 : (B / bps) * bps ≤ B := Nat.div_mul_le_self B bps
      omega
    exact extractChannel_length bps B ch ct hchB (hwf.2 ct hct).1
  constructor
  · intro hcount
    rw [GetPackedAudio, if_neg (by omega), GetPlanarAudio, if_neg (by omega)]
    by_cases hmid : packMid (audioNumSamples B cfg.stream) start count = 0
    · rw [hmid]
      refine ⟨?_, by exact h, ?_⟩
      · show zeroSamples B (packLead start count) ++
          (fillLoopV cfg B B id 0 ms _ _ _ 0).1 ++ _ = _
        rw [fillLoopV]
        simp [sampleBytes]
      · intro ch hch
        rw [getD_map_range (B / bps) ch _ [] hch]
        show zeroSamples bps (packLead start count) ++
          (fillLoopV cfg B bps (extractChannel bps B ch) 0 ms _ _ _ 0).1 ++ _ = _
        rw [fillLoopV]
        simp [sampleBytes]
    · have hmidpos : 0 < packMid (audioNumSamples B cfg.stream) start count := by omega
      have hstart1 : 0 ≤ packStart1 start count := by
        simp only [packMid, packStart1, packCount1, packLead] at *
        omega
      have hs0mid : (packStart1 start count).toNat +
          packMid (audioNumSamples B cfg.stream) start count ≤
          sampleCount B cfg.stream := by
        simp only [packMid, packStart1, packCount1, packLead, hns] at *
        omega
      have hs0lt : (packStart1 start count).toNat < sampleCount B cfg.stream := by
        omega
      have hff := frameFor_spec B cfg.stream (packStart1 start count).toNat hs0lt
      have hinv : 0 < packMid (audioNumSamples B cfg.stream) start count →
          (frameFor B cfg.stream (packStart1 start count).toNat).2 =
            frameStartSample B cfg.stream
              (frameFor B cfg.stream (packStart1 start count).toNat).1 ∧
          (frameFor B cfg.stream (packStart1 start count).toNat).2 ≤
            (packStart1 start count).toNat ∧
          (packStart1 start count).toNat <
            (frameFor B cfg.stream (packStart1 start count).toNat).2 +
            frameLen B cfg.stream
              (frameFor B cfg.stream (packStart1 start count).toNat).1 :=
        fun _ => hff
      have hpacked := fillLoopV_correct cfg B B id hwf hv_id
        (packMid (audioNumSamples B cfg.stream) start count) ms
        (frameFor B cfg.stream (packStart1 start count).toNat).1
        (frameFor B cfg.stream (packStart1 start count).toNat).2
        (packStart1 start count).toNat
        (packMid (audioNumSamples B cfg.stream) start count)
        h (le_refl _) hs0mid hinv
      refine ⟨?_, ?_, ?_⟩
      · rw [hpacked.1]
        simp [sampleBytes]
      · exact hpacked.2
      · intro ch hch
        rw [getD_map_range (B / bps) ch _ [] hch]
        have hplanar := fillLoopV_correct cfg B bps (extractChannel bps B ch) hwf
          (hv_ch ch hch)
          (packMid (audioNumSamples B cfg.stream) start count) ms
          (frameFor B cfg.stream (packStart1 start count).toNat).1
          (frameFor B cfg.stream (packStart1 start count).toNat).2
          (packStart1 start count).toNat
          (packMid (audioNumSamples B cfg.stream) start count)
          h (le_refl _) hs0mid hinv
        rw [hplanar.1]
        simp [sampleBytes]
  · intro ho
    by_cases hcount : count ≤ 0
    · rw [GetPackedAudio, if_pos hcount, GetPlanarAudio, if_pos hcount]
      refine ⟨by simp [show count.toNat = 0 by omega], rfl, ?_, rfl⟩
      intro ch hch
      show (List.replicate (B / bps) ([] : List Nat)).getD ch [] = _
      rw [getD_replicate_nil]
      simp [show count.toNat = 0 by omega]
    · have hcpos : 0 < count := by omega
      have hmid : packMid (audioNumSamples B cfg.stream) start count = 0 := by
        rcases ho with ho1 | ho2
        · simp only [packMid, packStart1, packCount1, packLead, hns] at *
          omega
        · simp only [packMid, packStart1, packCount1, packLead, hns] at *
          omega
      have hlt : packLead start count +
          packTail (audioNumSamples B cfg.stream) start count = count.toNat := by
        simp only [packTail, packMid, packStart1, packCount1, packLead, hns] at *
        omega
      rw [GetPackedAudio, if_neg (by omega), GetPlanarAudio, if_neg (by omega), hmid]
      have hzeros : ∀ outB : Nat,
          zeroSamples outB (packLead start count) ++ ([] : List Nat) ++
            zeroSamples outB (packTail (audioNumSamples B cfg.stream) start count) =
            List.replicate (count.toNat * outB) 0 := by
        intro outB
        rw [List.append_nil, zeroSamples, zeroSamples, ← List.replicate_add,
          ← Nat.add_mul, hlt]
      refine ⟨?_, rfl, ?_, rfl⟩
      · show zeroSamples B (packLead start count) ++
          (fillLoopV cfg B B id 0 ms _ _ _ 0).1 ++ _ = _
        rw [fillLoopV]
        exact hzeros B
      · intro ch hch
        rw [getD_map_range (B / bps) ch _ [] hch]
        show zeroSamples bps (packLead start count) ++
          (fillLoopV cfg B bps (extractChannel bps B ch) 0 ms _ _ _ 0).1 ++ _ = _
        rw [fillLoopV]
        exact hzeros bps

instance (B : Nat) (stream : List Content) : Decidable (audioWF B stream) := by
  unfold audioWF; infer_instance

instance (cfg : SourceConfig) (c : Cache) : Decidable (cacheOK cfg c) := by
  unfold cacheOK; infer_instance

/-- A concrete two-frame stereo source: 2 bytes per all-channel sample,
two samples per frame, four samples in total. -/
def cfgStereo : SourceConfig :=
  ⟨[[1, 2, 3, 4], [5, 6, 7, 8]], fun _ => true, fun k => some k, 1000⟩

/-- Witness for C6: a request overlapping the left edge is zero-padded and
carries the true bytes; a request past the end is all zeros and leaves the
state untouched. -/
theorem audio_zero_fill_witness :
    ((GetPackedAudio cfgStereo 2 BestAudioSource.initState (-1) 4).1 =
      zeroSamples 2 (packLead (-1) 4) ++
      sampleBytes 2 cfgStereo.stream (packStart1 (-1) 4).toNat
        (packMid (audioNumSamples 2 cfgStereo.stream) (-1) 4) ++
      zeroSamples 2 (packTail (audioNumSamples 2 cfgStereo.stream) (-1) 4)) ∧
    ((GetPlanarAudio cfgStereo 2 1 BestAudioSource.initState (-1) 4).1.getD 0 [] =
      zeroSamples 1 (packLead (-1) 4) ++
      sampleBytes 1 (cfgStereo.stream.map (extractChannel 1 2 0))
        (packStart1 (-1) 4).toNat
        (packMid (audioNumSamples 2 cfgStereo.stream) (-1) 4) ++
      zeroSamples 1 (packTail (audioNumSamples 2 cfgStereo.stream) (-1) 4)) ∧
    ((GetPackedAudio cfgStereo 2 BestAudioSource.initState 10 2).1 =
      List.replicate ((2 : Int).toNat * 2) 0) ∧
    ((GetPackedAudio cfgStereo 2 BestAudioSource.initState 10 2).2 =
      BestAudioSource.initState) :=
  ⟨((audio_zero_fill cfgStereo 2 1 BestAudioSource.initState (-1) 4 (by decide)
      (by decide)).1 (by decide)).1,
   ((audio_zero_fill cfgStereo 2 1 BestAudioSource.initState (-1) 4 (by decide)
      (by decide)).1 (by decide)).2.2 0 (by decide),
   ((audio_zero_fill cfgStereo 2 1 BestAudioSource.initState 10 2 (by decide)
      (by decide)).2 (by decide)).1,
   ((audio_zero_fill cfgStereo 2 1 BestAudioSource.initState 10 2 (by decide)
      (by decide)).2 (by decide)).2.1⟩

/-! ## Const-qualified public observers (C10)

The headers in `src/` declare these methods `const` (`audiosource.h` lines
185-191, `videosource.h` lines 269-279): `GetTrack`,
`GetRelativeStartTime`, `GetAudioProperties` / `GetVideoProperties`,
`GetFrameRangeBySamples`, `GetFrameInfo`, `GetLinearDecodingState` and
`WriteTimecodes`.  They are modelled as pure functions of the immutable
configuration, the in-memory track index and the current state; the step
function leaves the state — track index, frame cache, decoder pool and
stamps, bad-seek set, linear-mode flag, RFF state, seek and decode
counters — unchanged. -/

structure FrameRange where
  First : Int
  Last : Int
  FirstSamplePos : Int
  deriving DecidableEq, Repr

/-- Index of the last frame whose `Start` is at most `s` (−1 when none):
the §4.6 binary search of `start_sample`, modelled by its specification on
the in-memory index. -/
def frameIndexForSample (frames : List AudioFrameInfo) (s : Int) : Int :=
  ((frames.takeWhile (fun f => decide (f.Start ≤ s))).length : Int) - 1

/-- The method `GetFrameRangeBySamples` (`audiosource.h` line 191, `const`): a pure
function of the in-memory index — no decoder is involved. -/
def GetFrameRangeBySamples (frames : List AudioFrameInfo) (start count : Int) :
    FrameRange :=
  ⟨frameIndexForSample frames start,
   frameIndexForSample frames (start + count - 1),
   ((frames.drop (frameIndexForSample frames start).toNat).headD ⟨0, 0, 0, []⟩).Start⟩

/-- The method `GetFrameInfo` (`videosource.h` line 278, `const`). -/
def GetFrameInfo (idx : VideoTrackIndex) (N : Nat) : Option VideoFrameInfo :=
  (idx.Frames.drop N).head?

/-- The method `GetLinearDecodingState` (`videosource.h` line 279, `const`). -/
def GetLinearDecodingState (ms : MutState) : Bool := ms.linearMode

/-- The extra video-source state: the RFF map next to the engine state
(`videosource.h` lines 240-241). -/
structure VideoState where
  ms : MutState
  rffState : RFFStateEnum
  rffFields : List (Nat × Nat)
  deriving DecidableEq, Repr

/-- The method `WriteTimecodes` (`videosource.h` line 277, `const`): one timestamp per
frame in ascending display order, RFF-expanded when the RFF map is active;
being `const` it can only read the current RFF state, never initialize
it. -/
def WriteTimecodes (idx : VideoTrackIndex) (vs : VideoState) : List Int :=
  if vs.rffState = RFFStateEnum.Ready then
    vs.rffFields.map (fun p => ((idx.Frames.drop p.1).headD ⟨0, 0, false, false, []⟩).PTS)
  else idx.Frames.map VideoFrameInfo.PTS

/-- Modelled from the spec: §4.7 — `MergeField`: a display frame synthesized
from the top and bottom fields of two underlying frames. -/
def mergeField (top bottom : Content) : Content := top ++ bottom

/-- Modelled from the spec: §4.7 — `GetFrameWithRFF`: initialize the RFF
map on first use, then retrieve the display frame through the seek
engine. -/
def GetFrameWithRFF (cfg : SourceConfig) (idx : VideoTrackIndex) (vs : VideoState)
    (N : Int) (lin : Bool) : Except BSError Content × VideoState :=
  if vs.rffState = RFFStateEnum.Uninitialized then
    GetFrameWithRFF cfg idx
      {vs with rffState := (initializeRFF idx.Frames).1,
               rffFields := (initializeRFF idx.Frames).2} N lin
  else if vs.rffState = RFFStateEnum.Unused then
    ((GetFrame cfg vs.ms N lin).1, {vs with ms := (GetFrame cfg vs.ms N lin).2})
  else
    match (vs.rffFields.drop N.toNat).head? with
    | none => (.error .RangeError, vs)
    | some p =>
      match GetFrame cfg vs.ms (p.1 : Int) lin with
      | (Except.ok top, ms1) =>
        match GetFrame cfg ms1 (p.2 : Int) lin with
        | (Except.ok bottom, ms2) => (.ok (mergeField top bottom), {vs with ms := ms2})
        | (Except.error e, ms2) => (.error e, {vs with ms := ms2})
      | (Except.error e, ms1) => (.error e, {vs with ms := ms1})
  termination_by (if vs.rffState = RFFStateEnum.Uninitialized then 1 else 0)
  decreasing_by
    simp_all [initializeRFF]
    split <;> simp

/-- The modelled public operations of an audio source. -/
inductive AudioOp where
  | getFrame (N : Int) (linear : Bool) : AudioOp
  | setMaxCacheSize (bytes : Nat) : AudioOp
  | setSeekPreRoll (fr : Nat) : AudioOp
  | getTrack : AudioOp
  | getRelativeStartTime (t : Nat) : AudioOp
  | getAudioProperties : AudioOp
  | getFrameRangeBySamples (start count : Int) : AudioOp

def audioStep (cfg : SourceConfig) (op : AudioOp) (ms : MutState) : MutState :=
  match op with
  | .getFrame N l => (GetFrame cfg ms N l).2
  | .setMaxCacheSize b => SetMaxCacheSize ms b
  | .setSeekPreRoll f => SetSeekPreRoll ms f
  | .getTrack => ms
  | .getRelativeStartTime _ => ms
  | .getAudioProperties => ms
  | .getFrameRangeBySamples _ _ => ms

/-- The modelled public operations of a video source. -/
inductive VideoOp where
  | getFrame (N : Int) (linear : Bool) : VideoOp
  | getFrameWithRFF (N : Int) (linear : Bool) : VideoOp
  | setMaxCacheSize (bytes : Nat) : VideoOp
  | setSeekPreRoll (fr : Nat) : VideoOp
  | getTrack : VideoOp
  | getVideoProperties : VideoOp
  | getFrameInfo (N : Nat) : VideoOp
  | getLinearDecodingState : VideoOp
  | writeTimecodes : VideoOp

def videoStep (cfg : SourceConfig) (idx : VideoTrackIndex) (op : VideoOp)
    (vs : VideoState) : VideoState :=
  match op with
  | .getFrame N l => {vs with ms := (GetFrame cfg vs.ms N l).2}
  | .getFrameWithRFF N l => (GetFrameWithRFF cfg idx vs N l).2
  | .setMaxCacheSize b => {vs with ms := SetMaxCacheSize vs.ms b}
  | .setSeekPreRoll f => {vs with ms := SetSeekPreRoll vs.ms f}
  | .getTrack => vs
  | .getVideoProperties => vs
  | .getFrameInfo _ => vs
  | .getLinearDecodingState => vs
  | .writeTimecodes => vs

/-- C10. Every const-qualified public observer leaves the whole source
state (track index, frame cache, decoder pool and last-use stamps,
bad-seek set, linear-mode flag, RFF state, seek and decode counters)
unchanged; `GetFrameRangeBySamples` answers purely from the in-memory
index (it is a function of the index alone and its step touches no decoder
state), and `WriteTimecodes`, being `const`, leaves the RFF state exactly
as it found it, so it can never initialize the RFF map. -/
theorem const_observers_pure (cfg : SourceConfig) (idx : VideoTrackIndex)
    (frames : List AudioFrameInfo) (ms : MutState) (vs : VideoState) :
    (audioStep cfg AudioOp.getTrack ms = ms) ∧
    (∀ t : Nat, audioStep cfg (AudioOp.getRelativeStartTime t) ms = ms) ∧
    (audioStep cfg AudioOp.getAudioProperties ms = ms) ∧
    (∀ s c : Int, audioStep cfg (AudioOp.getFrameRangeBySamples s c) ms = ms) ∧
    (∀ s c : Int, GetFrameRangeBySamples frames s c =
      ⟨frameIndexForSample frames s, frameIndexForSample frames (s + c - 1),
       ((frames.drop (frameIndexForSample frames s).toNat).headD ⟨0, 0, 0, []⟩).Start⟩) ∧
    (videoStep cfg idx VideoOp.getTrack vs = vs) ∧
    (videoStep cfg idx VideoOp.getVideoProperties vs = vs) ∧
    (∀ N : Nat, videoStep cfg idx (VideoOp.getFrameInfo N) vs = vs) ∧
    (videoStep cfg idx VideoOp.getLinearDecodingState vs = vs) ∧
    (videoStep cfg idx VideoOp.writeTimecodes vs = vs) ∧
    (GetLinearDecodingState vs.ms = vs.ms.linearMode) ∧
    ((videoStep cfg idx VideoOp.writeTimecodes vs).rffState = vs.rffState ∧
     (videoStep cfg idx VideoOp.writeTimecodes vs).rffFields = vs.rffFields) :=
  ⟨rfl, fun _ => rfl, rfl, fun _ _ => rfl, fun _ _ => rfl, rfl, rfl, fun _ => rfl,
   rfl, rfl, rfl, rfl, rfl⟩

end BestSource
